import Mathlib

/-
Verification of sarc, a read-only accessor for the "sarc" archive format.

A shallow embedding of libsarc (archive.cpp, archive.hpp, file_accessor.hpp)
and theorems about it.

Conventions of the embedding

* std::uint8_t is Fin 256; std::uint32_t is Nat, reduced modulo 2^32 wherever
  the C++ arithmetic can wrap.
* std::int32_t (the difference_type of the iterator) is Int; the conversions
  between the two 32-bit types are two's complement (to_int32, to_uint32).
  Arithmetic on std::int32_t whose exact result does not fit is undefined
  behaviour (signed overflow) and is reported as Fault.SignedOverflow.
* A pointer into the caller's buffer is the offset from the start of the
  buffer; a pointer that may be null is an Option.
* The bytes behind the buffer pointer are a Memory: a byte where the buffer
  holds one, nothing elsewhere.  The C++ code reads without looking at the
  bounds; a read where the memory holds nothing is undefined behaviour and is
  reported as Fault.OutOfBounds.  Dereferencing a null pointer is
  Fault.NullPointer.
* Pointer arithmetic is exact: a pointer plus an offset is the sum in Nat.
* An assert whose condition is false is Fault.AssertionFailed.
-/

namespace sarc

/-- One `std::uint8_t`. -/
abbrev Byte := Fin 256

/-- The bytes reachable from a buffer pointer, by offset from that pointer:
`some b` where the buffer holds a byte, `none` outside of it. -/
abbrev Memory := Nat → Option Byte

/-- The memory of a buffer that holds exactly the bytes `bs`. -/
def Memory.ofList (bs : List Byte) : Memory := fun k => bs.get? k

/-- The buffer holds (at least) its first `n` bytes. -/
def Memory.Holds (d : Memory) (n : Nat) : Prop := ∀ k, k < n → (d k).isSome = true

instance (d : Memory) (n : Nat) : Decidable (d.Holds n) := by
  unfold Memory.Holds; infer_instance

/-- The `n` bytes from offset `p` on are held by the buffer. -/
def Memory.Readable (d : Memory) (p n : Nat) : Prop := ∀ k, k < n → (d (p + k)).isSome = true

instance (d : Memory) (p n : Nat) : Decidable (d.Readable p n) := by
  unfold Memory.Readable; infer_instance

/-- The ways an execution leaves the defined behaviour of the program. -/
inductive Fault
  | AssertionFailed
  | OutOfBounds
  | NullPointer
  | SignedOverflow
  deriving DecidableEq

/-- The expression `data[k]`. -/
def load (data : Memory) (k : Nat) : Except Fault Byte :=
  match data k with
  | some b => .ok b
  | none => .error .OutOfBounds

/-- The constant `MINIMUM_ARCHIVE_SIZE` (MagicNumber + Version + NumFiles). -/
def MINIMUM_ARCHIVE_SIZE : Nat := 4 + 4 + 4

/-- The function `read_uint32(data + p)`. -/
def read_uint32 (data : Memory) (p : Nat) : Except Fault Nat := do
  let d0 ← load data p
  let d1 ← load data (p + 1)
  let d2 ← load data (p + 2)
  let d3 ← load data (p + 3)
  pure (d0.val <<< 24 ||| d1.val <<< 16 ||| d2.val <<< 8 ||| d3.val <<< 0)

/-- The enumeration `Archive::ParsingResult`. -/
inductive ParsingResult
  | Succeeded
  | NullData
  | TooFewDataSize
  | DataCorrupted
  | UnsupportedVersion
  deriving DecidableEq

/-- The class `FileAccessor`; both pointers are offsets into the archive buffer. -/
structure FileAccessor where
  file_body_ : Option Nat
  file_name_ : Option Nat
  file_size_ : Nat
  deriving DecidableEq

/-- The constructors `FileAccessor()` and `FileAccessor(std::nullptr_t)`. -/
def FileAccessor.null : FileAccessor := ⟨none, none, 0⟩

/-- The method `FileAccessor::is_valid`. -/
def FileAccessor.is_valid (f : FileAccessor) : Bool := f.file_body_ != none

/-- The method `FileAccessor::data`. -/
def FileAccessor.data (f : FileAccessor) : Option Nat :=
  if f.is_valid then f.file_body_ else none

/-- The method `FileAccessor::file_name`. -/
def FileAccessor.file_name (f : FileAccessor) : Option Nat :=
  if f.is_valid then f.file_name_ else none

/-- The method `FileAccessor::file_size`. -/
def FileAccessor.file_size (f : FileAccessor) : Nat :=
  if f.is_valid then f.file_size_ else 0

/-- The class `Archive`.  `self` is the address of the object, which is all
that a comparison of two `const Archive*` looks at. -/
structure Archive where
  self : Nat
  parsing_result_ : ParsingResult
  data_ : Option Memory
  data_size_ : Nat

/-- The condition `data_[0] != 0x73 || data_[1] != 0x61 || data_[2] != 0x72 || data_[3] != 0x63`,
evaluated left to right, stopping at the first operand that is true. -/
def magic_number_differs (data : Memory) : Except Fault Bool := do
  let d0 ← load data 0
  if d0 ≠ 0x73 then pure true else do
  let d1 ← load data 1
  if d1 ≠ 0x61 then pure true else do
  let d2 ← load data 2
  if d2 ≠ 0x72 then pure true else do
  let d3 ← load data 3
  pure (decide (d3 ≠ 0x63))

/-- The constructor `Archive::Archive(data, data_size)` of the object at address `self`. -/
def Archive.ctor (self : Nat) (data : Option Memory) (data_size : Nat) : Except Fault Archive :=
  match data with
  | none => pure ⟨self, .NullData, data, data_size⟩
  | some d =>
    if data_size < MINIMUM_ARCHIVE_SIZE then
      pure ⟨self, .TooFewDataSize, data, data_size⟩
    else do
      let differs ← magic_number_differs d
      if differs then pure ⟨self, .DataCorrupted, data, data_size⟩ else do
      let version ← read_uint32 d 4
      if version ≠ 1 then pure ⟨self, .UnsupportedVersion, data, data_size⟩
      else pure ⟨self, .Succeeded, data, data_size⟩

/-- The method `Archive::parsing_result`. -/
def Archive.parsing_result (a : Archive) : ParsingResult := a.parsing_result_

/-- The method `Archive::num_files`. -/
def Archive.num_files (a : Archive) : Except Fault Nat :=
  if a.parsing_result_ ≠ .Succeeded then pure 0
  else
    match a.data_ with
    | none => .error .AssertionFailed
    | some d => read_uint32 d 8

/-- The local `offset_offset` of `Archive::get_file`: `12 + file_index * 4` in `std::uint32_t`. -/
def offset_offset (file_index : Nat) : Nat := (12 + (file_index * 4) % 2 ^ 32) % 2 ^ 32

/-- The method `Archive::get_file`. -/
def Archive.get_file (a : Archive) (file_index : Nat) : Except Fault FileAccessor :=
  if a.parsing_result_ ≠ .Succeeded then pure FileAccessor.null
  else
    match a.data_ with
    | none => .error .AssertionFailed
    | some d => do
      let n ← a.num_files
      if n ≤ file_index then pure FileAccessor.null else do
      let file_head_offset ← read_uint32 d (offset_offset file_index)
      let file_head := file_head_offset
      let file_body_offset_from_head ← read_uint32 d file_head
      let file_body_offset := (file_head_offset + file_body_offset_from_head) % 2 ^ 32
      let file_body := file_body_offset
      let file_size ← read_uint32 d (file_head + 4)
      let file_name := file_head + 12
      pure ⟨some file_body, some file_name, file_size⟩

/-- The C string behind a `const char*` argument of the caller: `none` is the
null pointer, `some cs` a string whose characters are `cs` followed by the
terminator (a zero inside `cs` already ends the string). -/
abbrev CString := Option (List Byte)

/-- The loop of `std::strcmp(s1, s2) == 0`, with `s1` at offset `p` of the archive
buffer and `s2` the caller's string: compare character by character, unequal at
the first difference, equal when both are at their terminator. -/
def strcmp_loop (data : Memory) (p : Nat) : List Byte → Except Fault Bool
  | [] => do
    let c ← load data p
    pure (decide (c = 0))
  | q :: qs => do
    let c ← load data p
    if c ≠ q then pure false
    else if c = 0 then pure true
    else strcmp_loop data (p + 1) qs

/-- The expression `std::strcmp(s1, s2) == 0`; a null argument is dereferenced. -/
def strcmp_is_zero (data : Memory) (s1 : Option Nat) (s2 : CString) : Except Fault Bool :=
  match s1, s2 with
  | some p, some cs => strcmp_loop data p cs
  | _, _ => .error .NullPointer

/-- The loop `for (i = ...; i < num; ++i)` of `Archive::find_file`, followed by
the final `return nullptr`; the last argument is `num - i`, the number of
iterations the loop has left. -/
def Archive.find_file_loop (a : Archive) (data : Memory) (file_name : CString) (i : Nat) :
    Nat → Except Fault FileAccessor
  | 0 => pure FileAccessor.null
  | left + 1 => do
    let file ← a.get_file i
    if !file.is_valid then .error .AssertionFailed else do
    let same ← strcmp_is_zero data file.file_name file_name
    if same then pure file
    else Archive.find_file_loop a data file_name (i + 1) left

/-- The method `Archive::find_file`. -/
def Archive.find_file (a : Archive) (file_name : CString) : Except Fault FileAccessor :=
  if a.parsing_result_ ≠ .Succeeded then pure FileAccessor.null
  else
    match a.data_ with
    | none => .error .AssertionFailed
    | some d => do
      let num ← a.num_files
      a.find_file_loop d file_name 0 num

/-- The class `Archive::Iterator`. -/
structure Iterator where
  archive_ : Option Archive
  file_index_ : Nat

/-- The constructor `Iterator(archive, file_index)`. -/
def Iterator.ctor (archive : Option Archive) (file_index : Nat) : Except Fault Iterator :=
  match archive with
  | none => .error .AssertionFailed
  | some a => do
    let n ← a.num_files
    if file_index ≤ n then pure ⟨archive, file_index⟩ else .error .AssertionFailed

/-- The method `Archive::begin`. -/
def Archive.begin (a : Archive) : Except Fault Iterator :=
  Iterator.ctor (some a) 0

/-- The method `Archive::end`. -/
def Archive.end_ (a : Archive) : Except Fault Iterator := do
  let n ← a.num_files
  Iterator.ctor (some a) n

/-- The operator `Iterator::operator*`. -/
def Iterator.operator_star (it : Iterator) : Except Fault FileAccessor :=
  match it.archive_ with
  | none => .error .AssertionFailed
  | some a => do
    let n ← a.num_files
    if it.file_index_ < n then a.get_file it.file_index_ else .error .AssertionFailed

/-- The operator `Iterator::operator++()` (pre-increment): the iterator afterwards. -/
def Iterator.operator_pre_inc (it : Iterator) : Except Fault Iterator :=
  match it.archive_ with
  | none => .error .AssertionFailed
  | some a => do
    let n ← a.num_files
    if it.file_index_ < n then pure ⟨it.archive_, (it.file_index_ + 1) % 2 ^ 32⟩
    else .error .AssertionFailed

/-- The operator `operator==(lhs, rhs)` on iterators. -/
def operator_eq (lhs rhs : Iterator) : Except Fault Bool :=
  match lhs.archive_, rhs.archive_ with
  | some l, some r =>
    if l.self = r.self then pure (decide (lhs.file_index_ = rhs.file_index_))
    else .error .AssertionFailed
  | _, _ => .error .AssertionFailed

/-- The operator `operator!=(lhs, rhs)` on iterators. -/
def operator_ne (lhs rhs : Iterator) : Except Fault Bool := do
  let e ← operator_eq lhs rhs
  pure (!e)

/-- The loop `while (it != end()) { yield *it; ++it; }` over the archive `a`:
the views it yields, in order, or `none` when `fuel` evaluations of the loop
condition were not enough to leave the loop. -/
def enumerate_loop (a : Archive) : Nat → Iterator → Except Fault (Option (List FileAccessor))
  | 0, _ => pure none
  | fuel + 1, it => do
    let last ← a.end_
    let more ← operator_ne it last
    if more then do
      let file ← it.operator_star
      let next ← it.operator_pre_inc
      let rest ← enumerate_loop a fuel next
      pure (rest.map (fun fs => file :: fs))
    else pure (some [])

/-- The statement `it = begin(); while (it != end()) { yield *it; ++it; }`. -/
def Archive.enumerate (a : Archive) (fuel : Nat) : Except Fault (Option (List FileAccessor)) := do
  let it ← a.begin
  enumerate_loop a fuel it

/-- The big-endian value of four bytes as the specification writes it:
`b0*2^24 + b1*2^16 + b2*2^8 + b3`. -/
def big_endian32 (b0 b1 b2 b3 : Byte) : Nat :=
  b0.val * 2 ^ 24 + b1.val * 2 ^ 16 + b2.val * 2 ^ 8 + b3.val

/-- The big-endian 32-bit integer stored at offsets `p .. p+3` of the buffer,
as the specification defines it; `none` when the buffer does not hold the four bytes. -/
def big_endian32_at (d : Memory) (p : Nat) : Option Nat :=
  match d p, d (p + 1), d (p + 2), d (p + 3) with
  | some b0, some b1, some b2, some b3 => some (big_endian32 b0 b1 b2 b3)
  | _, _, _, _ => none

/-- The first four bytes are the ASCII bytes `s a r c`, as the specification writes them. -/
def has_magic (d : Memory) : Prop :=
  d 0 = some 0x73 ∧ d 1 = some 0x61 ∧ d 2 = some 0x72 ∧ d 3 = some 0x63

instance (d : Memory) : Decidable (has_magic d) := by
  unfold has_magic; infer_instance

/-- The parse result as the specification's construction contract decides it:
the first failing check of the list, in its order. -/
def parse_result_spec (data : Option Memory) (length : Nat) : ParsingResult :=
  match data with
  | none => .NullData
  | some d =>
    if length < 12 then .TooFewDataSize
    else if ¬ has_magic d then .DataCorrupted
    else if big_endian32_at d 4 ≠ some 1 then .UnsupportedVersion
    else .Succeeded

/-- A successfully parsed archive: `a` is what the constructor made, at address
`self`, of a buffer `d` that holds `data_size` bytes, and its result is `Succeeded`. -/
def Archive.ParsedFrom (a : Archive) (self : Nat) (d : Memory) (data_size : Nat) : Prop :=
  d.Holds data_size ∧ Archive.ctor self (some d) data_size = .ok a ∧
    a.parsing_result = .Succeeded

/-- The buffer holds what `get_file(file_index)` reads of the file: the entry of
the offset table and the first eight bytes of the record the entry points to. -/
def Memory.HoldsRecord (d : Memory) (file_index : Nat) : Prop :=
  match big_endian32_at d (offset_offset file_index) with
  | some record_head => d.Readable record_head 8
  | none => False

instance (d : Memory) (i : Nat) : Decidable (d.HoldsRecord i) := by
  unfold Memory.HoldsRecord; split <;> infer_instance

/-- The example buffer of the specification (35 bytes), with `x y z` its three body bytes. -/
def specExampleBytes (x y z : Byte) : List Byte :=
  [0x73, 0x61, 0x72, 0x63, 0x00, 0x00, 0x00, 0x01, 0x00, 0x00, 0x00, 0x01,
   0x00, 0x00, 0x00, 0x0C, 0x00, 0x00, 0x00, 0x10, 0x00, 0x00, 0x00, 0x03,
   0x00, 0x00, 0x00, 0x00, 0x66, 0x6F, 0x6F, 0x00, x, y, z]

/-- The archive constructed from the example buffer of the specification. -/
def specExample (x y z : Byte) : Archive :=
  ⟨0, .Succeeded, some (Memory.ofList (specExampleBytes x y z)), 35⟩

/-- The example buffer of the specification with the offset-table entry
`00 00 00 10` in place of `00 00 00 0C`: the record then starts at offset 16. -/
def fooBuffer (x y z : Byte) : List Byte :=
  [0x73, 0x61, 0x72, 0x63, 0x00, 0x00, 0x00, 0x01, 0x00, 0x00, 0x00, 0x01,
   0x00, 0x00, 0x00, 0x10, 0x00, 0x00, 0x00, 0x10, 0x00, 0x00, 0x00, 0x03,
   0x00, 0x00, 0x00, 0x00, 0x66, 0x6F, 0x6F, 0x00, x, y, z]

/-- The buffer `fooBuffer` with the body bytes `AA BB CC`. -/
def fooBytes : List Byte := fooBuffer 0xAA 0xBB 0xCC

/-- The archive constructed from `fooBytes`: one file `foo` of three bytes. -/
def fooArchive : Archive :=
  ⟨0, .Succeeded, some (Memory.ofList fooBytes), 35⟩

/-- The characters of the C string `"foo"`. -/
def fooName : List Byte := [0x66, 0x6F, 0x6F]

/-- An archive whose construction failed: a ten-byte buffer. -/
def shortArchive : Archive :=
  ⟨0, .TooFewDataSize, some (Memory.ofList [0x73, 0x61, 0x72, 0x63, 0, 0, 0, 1, 0, 0]), 10⟩

/-- A 24-byte archive with one file whose record (at offset 16) has the body
offset `FF FF FF FF` from the record head. -/
def wrapBytes : List Byte :=
  [0x73, 0x61, 0x72, 0x63, 0x00, 0x00, 0x00, 0x01, 0x00, 0x00, 0x00, 0x01,
   0x00, 0x00, 0x00, 0x10, 0xFF, 0xFF, 0xFF, 0xFF, 0x00, 0x00, 0x00, 0x00]

/-- The archive constructed from `wrapBytes`. -/
def wrapArchive : Archive :=
  ⟨0, .Succeeded, some (Memory.ofList wrapBytes), 24⟩

/-- A buffer of `2^32 + 16` bytes: the header `sarc`, version 1, file count
`0x40000000`, and zero bytes after it. -/
def hugeMemory : Memory := fun k =>
  if k < 12 then [0x73, 0x61, 0x72, 0x63, 0x00, 0x00, 0x00, 0x01, 0x40, 0x00, 0x00, 0x00].get? k
  else if k < 2 ^ 32 + 16 then some 0
  else none

/-- The archive constructed from `hugeMemory` with the largest `data_size` a
`std::uint32_t` can express. -/
def hugeArchive : Archive :=
  ⟨0, .Succeeded, some hugeMemory, 4294967295⟩

/-- The name of file `i` compared with `name`: `get_file(i).file_name()` is
byte-equal to `name` up to the terminator, i.e. `std::strcmp` of the two is zero. -/
def Archive.name_is (a : Archive) (d : Memory) (i : Nat) (name : CString) : Except Fault Bool := do
  let f ← a.get_file i
  strcmp_is_zero d f.file_name name

/-- The conversion of an integer to `std::int32_t` (two's complement): the value
in `[-2^31, 2^31)` congruent to it modulo `2^32`.  It is what the conversion
from `std::uint32_t` produces. -/
def to_int32 (x : Int) : Int := (x + 2 ^ 31) % 2 ^ 32 - 2 ^ 31

/-- The result of an arithmetic operation on `std::int32_t` whose exact value is
`x`: the value itself when it fits, undefined behaviour (signed overflow) when
it does not. -/
def int32_arith (x : Int) : Except Fault Int :=
  if -2 ^ 31 ≤ x ∧ x < 2 ^ 31 then pure x else .error .SignedOverflow

/-- The conversion of an integer to `std::uint32_t`: the value in `[0, 2^32)`
congruent to it modulo `2^32`. -/
def to_uint32 (x : Int) : Nat := (x % 2 ^ 32).toNat

/-- The constructor `Iterator()`. -/
def Iterator.default_ctor : Iterator := ⟨none, 0⟩

/-- The operator `Iterator::operator[]`, `index` a `difference_type`. -/
def Iterator.operator_index (it : Iterator) (index : Int) : Except Fault FileAccessor :=
  match it.archive_ with
  | none => .error .AssertionFailed
  | some a => do
    let new_file_index := to_uint32 ((it.file_index_ : Int) + index)
    let n ← a.num_files
    if new_file_index ≤ n then a.get_file new_file_index else .error .AssertionFailed

/-- The operator `Iterator::operator++(int)` (post-increment): the iterator
afterwards and the iterator returned. -/
def Iterator.operator_post_inc (it : Iterator) : Except Fault (Iterator × Iterator) :=
  match it.archive_ with
  | none => .error .AssertionFailed
  | some a => do
    let n ← a.num_files
    if it.file_index_ < n then do
      let file_index : Nat := (it.file_index_ + 1) % 2 ^ 32
      let returned ← Iterator.ctor it.archive_ (to_uint32 ((file_index : Int) - 1))
      pure (⟨it.archive_, file_index⟩, returned)
    else .error .AssertionFailed

/-- The operator `Iterator::operator--()` (pre-decrement): the iterator afterwards. -/
def Iterator.operator_pre_dec (it : Iterator) : Except Fault Iterator :=
  match it.archive_ with
  | none => .error .AssertionFailed
  | some _ =>
    if 0 < it.file_index_ then pure ⟨it.archive_, to_uint32 ((it.file_index_ : Int) - 1)⟩
    else .error .AssertionFailed

/-- The operator `Iterator::operator--(int)` (post-decrement): the iterator
afterwards and the iterator returned. -/
def Iterator.operator_post_dec (it : Iterator) : Except Fault (Iterator × Iterator) :=
  match it.archive_ with
  | none => .error .AssertionFailed
  | some _ =>
    if 0 < it.file_index_ then do
      let file_index := to_uint32 ((it.file_index_ : Int) - 1)
      let returned ← Iterator.ctor it.archive_ ((file_index + 1) % 2 ^ 32)
      pure (⟨it.archive_, file_index⟩, returned)
    else .error .AssertionFailed

/-- The operator `Iterator::operator+=`: the iterator afterwards. -/
def Iterator.operator_add_assign (it : Iterator) (rhs : Int) : Except Fault Iterator :=
  match it.archive_ with
  | none => .error .AssertionFailed
  | some a => do
    let file_index := to_uint32 ((it.file_index_ : Int) + rhs)
    let n ← a.num_files
    if file_index ≤ n then pure ⟨it.archive_, file_index⟩ else .error .AssertionFailed

/-- The operator `Iterator::operator-=`: the iterator afterwards. -/
def Iterator.operator_sub_assign (it : Iterator) (rhs : Int) : Except Fault Iterator :=
  match it.archive_ with
  | none => .error .AssertionFailed
  | some a => do
    let file_index := to_uint32 ((it.file_index_ : Int) - rhs)
    let n ← a.num_files
    if file_index ≤ n then pure ⟨it.archive_, file_index⟩ else .error .AssertionFailed

/-- The operator `operator+(const Iterator& lhs, difference_type rhs)`. -/
def operator_add (lhs : Iterator) (rhs : Int) : Except Fault Iterator :=
  match lhs.archive_ with
  | none => .error .AssertionFailed
  | some a => do
    let file_index := to_uint32 ((lhs.file_index_ : Int) + rhs)
    let n ← a.num_files
    if file_index ≤ n then Iterator.ctor lhs.archive_ file_index else .error .AssertionFailed

/-- The operator `operator+(difference_type lhs, const Iterator& rhs)`. -/
def operator_add_left (lhs : Int) (rhs : Iterator) : Except Fault Iterator :=
  operator_add rhs lhs

/-- The operator `operator-(const Iterator& lhs, difference_type rhs)`:
`lhs + (-rhs)`, the negation `-rhs` being arithmetic on `std::int32_t`. -/
def operator_sub (lhs : Iterator) (rhs : Int) : Except Fault Iterator := do
  let negated ← int32_arith (-rhs)
  operator_add lhs negated

/-- The operator `operator-(const Iterator& lhs, const Iterator& rhs)`: both
indices are converted to `difference_type` and subtracted as `std::int32_t`. -/
def operator_diff (lhs rhs : Iterator) : Except Fault Int :=
  match lhs.archive_, rhs.archive_ with
  | some _, some _ =>
    int32_arith (to_int32 (lhs.file_index_ : Int) - to_int32 (rhs.file_index_ : Int))
  | _, _ => .error .AssertionFailed

/-- The operator `operator<(lhs, rhs)` on iterators. -/
def operator_lt (lhs rhs : Iterator) : Except Fault Bool :=
  match lhs.archive_, rhs.archive_ with
  | some l, some r =>
    if l.self = r.self then pure (decide (lhs.file_index_ < rhs.file_index_))
    else .error .AssertionFailed
  | _, _ => .error .AssertionFailed

/-- The operator `operator<=(lhs, rhs)`: `operator<(lhs, rhs) || operator==(lhs, rhs)`. -/
def operator_le (lhs rhs : Iterator) : Except Fault Bool := do
  let lt ← operator_lt lhs rhs
  if lt then pure true else operator_eq lhs rhs

/-- The operator `operator>(lhs, rhs)`: `!operator<=(lhs, rhs)`. -/
def operator_gt (lhs rhs : Iterator) : Except Fault Bool := do
  let le ← operator_le lhs rhs
  pure (!le)

/-- The operator `operator>=(lhs, rhs)`: `operator>(lhs, rhs) || operator==(lhs, rhs)`. -/
def operator_ge (lhs rhs : Iterator) : Except Fault Bool := do
  let gt ← operator_gt lhs rhs
  if gt then pure true else operator_eq lhs rhs

/-- The cursor invariant: the iterator is bound to the archive `a` and its index
is in `[0, N]`, with `N` the file count of `a`. -/
def Iterator.Inv (it : Iterator) (a : Archive) (N : Nat) : Prop :=
  it.archive_ = some a ∧ it.file_index_ ≤ N

/-- A 12-byte buffer: the header `sarc`, version 1, file count 1, and no offset table. -/
def headerOnlyBytes : List Byte :=
  [0x73, 0x61, 0x72, 0x63, 0x00, 0x00, 0x00, 0x01, 0x00, 0x00, 0x00, 0x01]

/-- The archive constructed from `headerOnlyBytes`. -/
def headerOnlyArchive : Archive :=
  ⟨0, .Succeeded, some (Memory.ofList headerOnlyBytes), 12⟩

/-- A 12-byte buffer: the header `sarc`, version 1, file count `FF FF FF FF`. -/
def maxCountBytes : List Byte :=
  [0x73, 0x61, 0x72, 0x63, 0x00, 0x00, 0x00, 0x01, 0xFF, 0xFF, 0xFF, 0xFF]

/-- The archive constructed from `maxCountBytes`: its file count is `2^32 - 1`. -/
def maxCountArchive : Archive :=
  ⟨0, .Succeeded, some (Memory.ofList maxCountBytes), 12⟩

/-- The memory `d` cut down to its first `n` bytes: nothing is held from offset `n` on. -/
def Memory.restrict (d : Memory) (n : Nat) : Memory := fun k => if k < n then d k else none

/-- A buffer that holds no byte at all. -/
def Memory.empty : Memory := fun _ => none

/-- The cursor of `maxCountArchive` at index `2^31 - 1`. -/
def midCursor : Iterator := ⟨some maxCountArchive, 2147483647⟩

/-- The cursor `begin()` of `fooArchive`. -/
def fooBegin : Iterator := ⟨some fooArchive, 0⟩

/-- The cursor `end()` of `fooArchive`. -/
def fooEnd : Iterator := ⟨some fooArchive, 1⟩

/-- The characters of the C string that the caller's sequence `cs` denotes: the
bytes before its first zero (all of them when there is none). -/
def c_str : List Byte → List Byte
  | [] => []
  | q :: qs => if q = 0 then [] else q :: c_str qs

/-- The buffer holds at offset `p` the null-terminated string with the
characters `s`: the bytes of `s`, none of them zero, followed by a zero byte. -/
def Memory.HoldsCString (d : Memory) : Nat → List Byte → Prop
  | p, [] => d p = some 0
  | p, b :: s => d p = some b ∧ b ≠ 0 ∧ Memory.HoldsCString d (p + 1) s

/-- The first index, counted from `i`, at which the list of names has the name
`name`, as the specification words the result of the name lookup. -/
def first_index_of (name : List Byte) : List (List Byte) → Nat → Option Nat
  | [], _ => none
  | s :: rest, i => if s = name then some i else first_index_of name rest (i + 1)

/-- A 39-byte buffer with file count 2: the first table entry points to the
record of `foo` (three body bytes) at offset 20, the second table entry
`FF FF FF 00` points far outside the buffer. -/
def twoEntryBytes : List Byte :=
  [0x73, 0x61, 0x72, 0x63, 0x00, 0x00, 0x00, 0x01, 0x00, 0x00, 0x00, 0x02,
   0x00, 0x00, 0x00, 0x14, 0xFF, 0xFF, 0xFF, 0x00,
   0x00, 0x00, 0x00, 0x10, 0x00, 0x00, 0x00, 0x03, 0x00, 0x00, 0x00, 0x00,
   0x66, 0x6F, 0x6F, 0x00, 0xAA, 0xBB, 0xCC]

/-- The archive constructed from `twoEntryBytes`. -/
def twoEntryArchive : Archive :=
  ⟨0, .Succeeded, some (Memory.ofList twoEntryBytes), 39⟩

/-- A 72-byte archive with the three files `a`, `b`, `a`, in this order, each
without body bytes; the records are at offsets 24, 40 and 56. -/
def threeFileBytes : List Byte :=
  [0x73, 0x61, 0x72, 0x63, 0x00, 0x00, 0x00, 0x01, 0x00, 0x00, 0x00, 0x03,
   0x00, 0x00, 0x00, 0x18, 0x00, 0x00, 0x00, 0x28, 0x00, 0x00, 0x00, 0x38,
   0x00, 0x00, 0x00, 0x10, 0x00, 0x00, 0x00, 0x00, 0x00, 0x00, 0x00, 0x00,
   0x61, 0x00, 0x00, 0x00, 0x00, 0x00, 0x00, 0x10, 0x00, 0x00, 0x00, 0x00,
   0x00, 0x00, 0x00, 0x00, 0x62, 0x00, 0x00, 0x00, 0x00, 0x00, 0x00, 0x10,
   0x00, 0x00, 0x00, 0x00, 0x00, 0x00, 0x00, 0x00, 0x61, 0x00, 0x00, 0x00]

/-- The archive constructed from `threeFileBytes`. -/
def threeFileArchive : Archive :=
  ⟨0, .Succeeded, some (Memory.ofList threeFileBytes), 72⟩

/- Theorems. -/

theorem shift_or_eq_big_endian32 (b0 b1 b2 b3 : Byte) :
    b0.val <<< 24 ||| b1.val <<< 16 ||| b2.val <<< 8 ||| b3.val <<< 0
      = big_endian32 b0 b1 b2 b3 := by
  have h0 := b0.isLt
  have h1 := b1.isLt
  have h2 := b2.isLt
  have h3 := b3.isLt
  have e3 : 2 ^ 8 * (b0.val * 2 ^ 16 + b1.val * 2 ^ 8 + b2.val) + b3.val
      = 2 ^ 8 * (b0.val * 2 ^ 16 + b1.val * 2 ^ 8 + b2.val) ||| b3.val :=
    Nat.mul_add_lt_is_or (by omega) _
  have e2 : 2 ^ 16 * (b0.val * 2 ^ 8 + b1.val) + b2.val * 2 ^ 8
      = 2 ^ 16 * (b0.val * 2 ^ 8 + b1.val) ||| b2.val * 2 ^ 8 :=
    Nat.mul_add_lt_is_or (by omega) _
  have e1 : 2 ^ 24 * b0.val + b1.val * 2 ^ 16 = 2 ^ 24 * b0.val ||| b1.val * 2 ^ 16 :=
    Nat.mul_add_lt_is_or (by omega) _
  simp only [Nat.shiftLeft_eq, big_endian32, pow_zero, mul_one]
  have a1 : b0.val * 2 ^ 24 = 2 ^ 24 * b0.val := by ring
  have a2 : b0.val * 2 ^ 24 + b1.val * 2 ^ 16 = 2 ^ 16 * (b0.val * 2 ^ 8 + b1.val) := by ring
  have a3 : b0.val * 2 ^ 24 + b1.val * 2 ^ 16 + b2.val * 2 ^ 8
      = 2 ^ 8 * (b0.val * 2 ^ 16 + b1.val * 2 ^ 8 + b2.val) := by ring
  rw [a1, ← e1, ← a1, a2, ← e2, ← a2, a3, ← e3]

theorem big_endian32_lt (b0 b1 b2 b3 : Byte) : big_endian32 b0 b1 b2 b3 < 2 ^ 32 := by
  have h0 := b0.isLt
  have h1 := b1.isLt
  have h2 := b2.isLt
  have h3 := b3.isLt
  unfold big_endian32
  omega

theorem load_eq_ok {d : Memory} {k : Nat} {b : Byte} (h : d k = some b) : load d k = .ok b := by
  simp [load, h]

theorem load_eq_error {d : Memory} {k : Nat} (h : d k = none) : load d k = .error .OutOfBounds := by
  simp [load, h]

theorem read_uint32_eq_ok {d : Memory} {p : Nat} {b0 b1 b2 b3 : Byte}
    (h0 : d p = some b0) (h1 : d (p + 1) = some b1) (h2 : d (p + 2) = some b2)
    (h3 : d (p + 3) = some b3) :
    read_uint32 d p = .ok (big_endian32 b0 b1 b2 b3) := by
  simp only [read_uint32, load_eq_ok h0, load_eq_ok h1, load_eq_ok h2, load_eq_ok h3]
  simp only [bind, Except.bind, pure, Except.pure, shift_or_eq_big_endian32]

theorem read_uint32_eq (d : Memory) (p : Nat) :
    read_uint32 d p =
      match big_endian32_at d p with
      | some v => .ok v
      | none => .error .OutOfBounds := by
  cases h0 : d p with
  | none => simp [read_uint32, big_endian32_at, load, h0, bind, Except.bind]
  | some b0 =>
    cases h1 : d (p + 1) with
    | none => simp [read_uint32, big_endian32_at, load, h0, h1, bind, Except.bind]
    | some b1 =>
      cases h2 : d (p + 2) with
      | none => simp [read_uint32, big_endian32_at, load, h0, h1, h2, bind, Except.bind]
      | some b2 =>
        cases h3 : d (p + 3) with
        | none => simp [read_uint32, big_endian32_at, load, h0, h1, h2, h3, bind, Except.bind]
        | some b3 =>
          rw [read_uint32_eq_ok h0 h1 h2 h3]
          simp [big_endian32_at, h0, h1, h2, h3]

theorem read_uint32_ok_iff (d : Memory) (p v : Nat) :
    read_uint32 d p = .ok v ↔ big_endian32_at d p = some v := by
  rw [read_uint32_eq]
  cases big_endian32_at d p <;> simp

theorem big_endian32_at_lt {d : Memory} {p v : Nat} (h : big_endian32_at d p = some v) :
    v < 2 ^ 32 := by
  unfold big_endian32_at at h
  split at h
  · simp only [Option.some.injEq] at h
    rw [← h]
    exact big_endian32_lt _ _ _ _
  · simp at h

theorem read_uint32_lt {d : Memory} {p v : Nat} (h : read_uint32 d p = .ok v) : v < 2 ^ 32 :=
  big_endian32_at_lt ((read_uint32_ok_iff d p v).1 h)

theorem read_uint32_error {d : Memory} {p : Nat} {e : Fault} (h : read_uint32 d p = .error e) :
    e = .OutOfBounds := by
  rw [read_uint32_eq] at h
  cases hv : big_endian32_at d p <;> simp [hv] at h
  exact h.symm

theorem readable_big_endian32_at {d : Memory} {p : Nat} (h : d.Readable p 4) :
    ∃ v, big_endian32_at d p = some v := by
  have h0 := h 0 (by omega)
  have h1 := h 1 (by omega)
  have h2 := h 2 (by omega)
  have h3 := h 3 (by omega)
  simp only [Nat.add_zero, Option.isSome_iff_exists] at h0 h1 h2 h3
  obtain ⟨b0, h0⟩ := h0
  obtain ⟨b1, h1⟩ := h1
  obtain ⟨b2, h2⟩ := h2
  obtain ⟨b3, h3⟩ := h3
  exact ⟨big_endian32 b0 b1 b2 b3, by simp [big_endian32_at, h0, h1, h2, h3]⟩

theorem readable_read_uint32 {d : Memory} {p : Nat} (h : d.Readable p 4) :
    ∃ v, read_uint32 d p = .ok v := by
  obtain ⟨v, hv⟩ := readable_big_endian32_at h
  exact ⟨v, (read_uint32_ok_iff d p v).2 hv⟩

theorem holds_readable {d : Memory} {n p k : Nat} (h : d.Holds n) (hk : p + k ≤ n) :
    d.Readable p k := fun j hj => h (p + j) (by omega)

theorem magic_number_differs_eq (d : Memory) (h : d.Readable 0 4) :
    magic_number_differs d = .ok (decide (¬ has_magic d)) := by
  have h0 := h 0 (by omega)
  have h1 := h 1 (by omega)
  have h2 := h 2 (by omega)
  have h3 := h 3 (by omega)
  simp only [Nat.add_zero, Nat.zero_add, Option.isSome_iff_exists] at h0 h1 h2 h3
  obtain ⟨b0, h0⟩ := h0
  obtain ⟨b1, h1⟩ := h1
  obtain ⟨b2, h2⟩ := h2
  obtain ⟨b3, h3⟩ := h3
  simp only [magic_number_differs, load_eq_ok h0, load_eq_ok h1, load_eq_ok h2, load_eq_ok h3,
    has_magic, h0, h1, h2, h3, bind, Except.bind, pure, Except.pure, Option.some.injEq]
  by_cases c0 : b0 = 0x73 <;> by_cases c1 : b1 = 0x61 <;> by_cases c2 : b2 = 0x72 <;>
    by_cases c3 : b3 = 0x63 <;> simp [c0, c1, c2, c3]

/-- C1. For every buffer reference and length (the buffer, when present, holding
`data_size` bytes) the constructor returns an archive whose parse result is the one the
construction contract decides by its first failing check, in the order NullData (buffer
absent), TooFewDataSize (length below 12), DataCorrupted (bytes 0..3 are not 73 61 72 63),
UnsupportedVersion (the big-endian integer at offset 4 is not 1), else Succeeded.  The result
is Succeeded exactly when the buffer is present, the length is at least 12, the magic is
`sarc` and the version is 1; a present buffer shorter than 12 bytes gives TooFewDataSize
whatever its bytes are. -/
theorem ctor_parsing_result (self : Nat) (data : Option Memory) (data_size : Nat)
    (hbuf : ∀ d, data = some d → d.Holds data_size) :
    ∃ a, Archive.ctor self data data_size = .ok a ∧
      a.self = self ∧ a.data_ = data ∧ a.data_size_ = data_size ∧
      a.parsing_result = parse_result_spec data data_size ∧
      (a.parsing_result = .Succeeded ↔
        ∃ d, data = some d ∧ 12 ≤ data_size ∧ has_magic d ∧ big_endian32_at d 4 = some 1) ∧
      (data ≠ none → data_size < 12 → a.parsing_result = .TooFewDataSize) := by
  cases data with
  | none => exact ⟨_, rfl, rfl, rfl, rfl, rfl, by simp [Archive.parsing_result], by simp⟩
  | some d =>
    by_cases hsz : data_size < 12
    · refine ⟨⟨self, .TooFewDataSize, some d, data_size⟩, ?_, rfl, rfl, rfl, ?_, ?_, ?_⟩
      · simp [Archive.ctor, MINIMUM_ARCHIVE_SIZE, hsz, pure, Except.pure]
      · simp [Archive.parsing_result, parse_result_spec, hsz]
      · simp only [Archive.parsing_result, Option.some.injEq, exists_eq_left', false_iff, not_and,
          reduceCtorEq]
        omega
      · intro _ _; rfl
    · have hh := hbuf d rfl
      have hm := magic_number_differs_eq d (holds_readable hh (by omega))
      obtain ⟨v, hv⟩ := readable_big_endian32_at (holds_readable (p := 4) (k := 4) hh (by omega))
      have hr := (read_uint32_ok_iff d 4 v).2 hv
      by_cases hmag : has_magic d
      · by_cases hver : v = 1
        · refine ⟨⟨self, .Succeeded, some d, data_size⟩, ?_, rfl, rfl, rfl, ?_, ?_, ?_⟩
          · simp [Archive.ctor, MINIMUM_ARCHIVE_SIZE, hsz, hm, hr, hmag, hver, bind, Except.bind,
              pure, Except.pure]
          · simp [Archive.parsing_result, parse_result_spec, hsz, hmag, hv, hver]
          · simp only [Archive.parsing_result, Option.some.injEq, exists_eq_left', true_iff]
            exact ⟨by omega, hmag, by rw [hv, hver]⟩
          · intro _ h; exact absurd h hsz
        · refine ⟨⟨self, .UnsupportedVersion, some d, data_size⟩, ?_, rfl, rfl, rfl, ?_, ?_, ?_⟩
          · simp [Archive.ctor, MINIMUM_ARCHIVE_SIZE, hsz, hm, hr, hmag, hver, bind, Except.bind,
              pure, Except.pure]
          · simp [Archive.parsing_result, parse_result_spec, hsz, hmag, hv, hver]
          · simp only [Archive.parsing_result, Option.some.injEq, exists_eq_left', false_iff,
              reduceCtorEq, not_and, hv]
            intro _ _ h; exact hver h
          · intro _ h; exact absurd h hsz
      · refine ⟨⟨self, .DataCorrupted, some d, data_size⟩, ?_, rfl, rfl, rfl, ?_, ?_, ?_⟩
        · simp [Archive.ctor, MINIMUM_ARCHIVE_SIZE, hsz, hm, hmag, bind, Except.bind,
            pure, Except.pure]
        · simp [Archive.parsing_result, parse_result_spec, hsz, hmag]
        · simp only [Archive.parsing_result, Option.some.injEq, exists_eq_left', false_iff,
            reduceCtorEq, not_and]
          intro _ h; exact absurd h hmag
        · intro _ h; exact absurd h hsz

/-- The theorem `ctor_parsing_result` applied to a concrete archive, with its hypotheses discharged. -/
theorem ctor_parsing_result_witness :
    (∀ d, some (Memory.ofList fooBytes) = some d → d.Holds 35) ∧
    ∃ a, Archive.ctor 0 (some (Memory.ofList fooBytes)) 35 = .ok a ∧
      a.self = 0 ∧ a.data_ = some (Memory.ofList fooBytes) ∧ a.data_size_ = 35 ∧
      a.parsing_result = parse_result_spec (some (Memory.ofList fooBytes)) 35 ∧
      (a.parsing_result = .Succeeded ↔
        ∃ d, some (Memory.ofList fooBytes) = some d ∧ 12 ≤ 35 ∧ has_magic d ∧
          big_endian32_at d 4 = some 1) ∧
      (some (Memory.ofList fooBytes) ≠ none → 35 < 12 → a.parsing_result = .TooFewDataSize) :=
  have hbuf : ∀ d, some (Memory.ofList fooBytes) = some d → d.Holds 35 := by
    intro d hd
    cases hd
    decide
  ⟨hbuf, ctor_parsing_result 0 (some (Memory.ofList fooBytes)) 35 hbuf⟩

theorem ctor_some_ok_inv {self : Nat} {d : Memory} {data_size : Nat} {a : Archive}
    (h : Archive.ctor self (some d) data_size = .ok a) :
    a.self = self ∧ a.data_ = some d ∧ a.data_size_ = data_size ∧
      (a.parsing_result_ = .Succeeded → 12 ≤ data_size) := by
  unfold Archive.ctor at h
  simp only [MINIMUM_ARCHIVE_SIZE] at h
  split at h
  · simp only [pure, Except.pure, Except.ok.injEq] at h
    subst h
    simp
  · rename_i hsz
    cases hm : magic_number_differs d with
    | error e => simp [hm, bind, Except.bind] at h
    | ok differs =>
      cases differs with
      | true =>
        simp only [hm, bind, Except.bind, pure, Except.pure, if_true, Except.ok.injEq] at h
        subst h
        simp
      | false =>
        cases hv : read_uint32 d 4 with
        | error e => simp [hm, hv, bind, Except.bind] at h
        | ok v =>
          simp only [hm, hv, bind, Except.bind, pure, Except.pure] at h
          by_cases hver : v = 1
          · simp only [hver, ne_eq, not_true_eq_false, if_false, Bool.false_eq_true,
              Except.ok.injEq] at h
            subst h
            refine ⟨rfl, rfl, rfl, fun _ => ?_⟩
            omega
          · simp only [hver, ne_eq, not_false_eq_true, if_true, if_false, Bool.false_eq_true,
              Except.ok.injEq] at h
            subst h
            simp

theorem parsedFrom_inv {a : Archive} {self : Nat} {d : Memory} {data_size : Nat}
    (h : a.ParsedFrom self d data_size) :
    a.parsing_result_ = .Succeeded ∧ a.data_ = some d ∧ a.self = self ∧
      a.data_size_ = data_size ∧ 12 ≤ data_size ∧ d.Holds data_size := by
  obtain ⟨hh, hc, hs⟩ := h
  obtain ⟨h1, h2, h3, h4⟩ := ctor_some_ok_inv hc
  exact ⟨hs, h2, h1, h3, h4 hs, hh⟩

theorem num_files_of_succeeded {a : Archive} {d : Memory}
    (hs : a.parsing_result_ = .Succeeded) (hd : a.data_ = some d) :
    a.num_files = read_uint32 d 8 := by
  simp [Archive.num_files, hs, hd]

theorem num_files_of_failed {a : Archive} (hs : a.parsing_result_ ≠ .Succeeded) :
    a.num_files = .ok 0 := by
  simp [Archive.num_files, hs, pure, Except.pure]

theorem parsedFrom_num_files {a : Archive} {self : Nat} {d : Memory} {data_size : Nat}
    (h : a.ParsedFrom self d data_size) :
    ∃ N, a.num_files = .ok N ∧ big_endian32_at d 8 = some N ∧ N < 2 ^ 32 := by
  obtain ⟨hs, hd, _, _, hsz, hh⟩ := parsedFrom_inv h
  obtain ⟨N, hN⟩ := readable_big_endian32_at (holds_readable (p := 8) (k := 4) hh (by omega))
  refine ⟨N, ?_, hN, big_endian32_at_lt hN⟩
  rw [num_files_of_succeeded hs hd]
  exact (read_uint32_ok_iff d 8 N).2 hN

theorem get_file_of_failed {a : Archive} (hs : a.parsing_result_ ≠ .Succeeded) (i : Nat) :
    a.get_file i = .ok FileAccessor.null := by
  simp [Archive.get_file, hs, pure, Except.pure]

theorem find_file_of_failed {a : Archive} (hs : a.parsing_result_ ≠ .Succeeded)
    (name : CString) : a.find_file name = .ok FileAccessor.null := by
  simp [Archive.find_file, hs, pure, Except.pure]

theorem begin_eq {a : Archive} {N : Nat} (hN : a.num_files = .ok N) :
    a.begin = .ok ⟨some a, 0⟩ := by
  simp [Archive.begin, Iterator.ctor, hN, bind, Except.bind, pure, Except.pure]

theorem end_eq {a : Archive} {N : Nat} (hN : a.num_files = .ok N) :
    a.end_ = .ok ⟨some a, N⟩ := by
  simp [Archive.end_, Iterator.ctor, hN, bind, Except.bind, pure, Except.pure]

/-- C2. For every archive whose parse result is not Succeeded, whatever its buffer:
`num_files` is 0, `get_file` returns the invalid accessor for every index, `find_file`
returns the invalid accessor for every name (the null name included), `begin` and `end` are
both the iterator at index 0, and the enumeration loop yields nothing. -/
theorem failed_archive_queries (a : Archive) (h : a.parsing_result ≠ .Succeeded) :
    a.num_files = .ok 0 ∧
    (∀ i, a.get_file i = .ok FileAccessor.null) ∧
    (∀ name, a.find_file name = .ok FileAccessor.null) ∧
    FileAccessor.null.is_valid = false ∧
    a.begin = .ok ⟨some a, 0⟩ ∧ a.end_ = .ok ⟨some a, 0⟩ ∧
    (∀ fuel, a.enumerate (fuel + 1) = .ok (some [])) := by
  have hs : a.parsing_result_ ≠ .Succeeded := h
  have hN := num_files_of_failed hs
  refine ⟨hN, get_file_of_failed hs, find_file_of_failed hs, rfl, begin_eq hN, end_eq hN, ?_⟩
  intro fuel
  simp [Archive.enumerate, enumerate_loop, begin_eq hN, end_eq hN, operator_ne, operator_eq,
    bind, Except.bind, pure, Except.pure]

theorem failed_archive_queries_witness :
    shortArchive.parsing_result ≠ .Succeeded ∧
    (shortArchive.num_files = .ok 0 ∧
    (∀ i, shortArchive.get_file i = .ok FileAccessor.null) ∧
    (∀ name, shortArchive.find_file name = .ok FileAccessor.null) ∧
    FileAccessor.null.is_valid = false ∧
    shortArchive.begin = .ok ⟨some shortArchive, 0⟩ ∧
    shortArchive.end_ = .ok ⟨some shortArchive, 0⟩ ∧
    (∀ fuel, shortArchive.enumerate (fuel + 1) = .ok (some []))) :=
  ⟨by decide, failed_archive_queries shortArchive (by decide)⟩

/-- C3. For every successfully parsed archive, `num_files` is the big-endian 32-bit
integer at offsets 8..11, `b8*2^24 + b9*2^16 + b10*2^8 + b11`: this is what `read_uint32`
computes as `(b8<<24)|(b9<<16)|(b10<<8)|b11`, and it is below `2^32`. -/
theorem num_files_big_endian (a : Archive) (self : Nat) (d : Memory) (data_size : Nat)
    (h : a.ParsedFrom self d data_size) :
    ∃ b8 b9 b10 b11 : Byte,
      d 8 = some b8 ∧ d 9 = some b9 ∧ d 10 = some b10 ∧ d 11 = some b11 ∧
      a.num_files = .ok (b8.val * 2 ^ 24 + b9.val * 2 ^ 16 + b10.val * 2 ^ 8 + b11.val) ∧
      read_uint32 d 8 = .ok (b8.val <<< 24 ||| b9.val <<< 16 ||| b10.val <<< 8 ||| b11.val <<< 0) ∧
      (b8.val <<< 24 ||| b9.val <<< 16 ||| b10.val <<< 8 ||| b11.val <<< 0)
        = b8.val * 2 ^ 24 + b9.val * 2 ^ 16 + b10.val * 2 ^ 8 + b11.val ∧
      b8.val * 2 ^ 24 + b9.val * 2 ^ 16 + b10.val * 2 ^ 8 + b11.val < 2 ^ 32 := by
  obtain ⟨hs, hd, _, _, hsz, hh⟩ := parsedFrom_inv h
  have h8 := hh 8 (by omega)
  have h9 := hh 9 (by omega)
  have h10 := hh 10 (by omega)
  have h11 := hh 11 (by omega)
  simp only [Option.isSome_iff_exists] at h8 h9 h10 h11
  obtain ⟨b8, h8⟩ := h8
  obtain ⟨b9, h9⟩ := h9
  obtain ⟨b10, h10⟩ := h10
  obtain ⟨b11, h11⟩ := h11
  have hr : read_uint32 d 8 = .ok (big_endian32 b8 b9 b10 b11) :=
    read_uint32_eq_ok h8 h9 h10 h11
  refine ⟨b8, b9, b10, b11, h8, h9, h10, h11, ?_, ?_, ?_, ?_⟩
  · rw [num_files_of_succeeded hs hd, hr]; rfl
  · rw [hr, shift_or_eq_big_endian32]
  · exact shift_or_eq_big_endian32 b8 b9 b10 b11
  · exact big_endian32_lt b8 b9 b10 b11

/-- The theorem `num_files_big_endian` applied to a concrete archive, with its hypotheses discharged. -/
theorem num_files_big_endian_witness :
    fooArchive.ParsedFrom 0 (Memory.ofList fooBytes) 35 ∧
    ∃ b8 b9 b10 b11 : Byte,
      Memory.ofList fooBytes 8 = some b8 ∧ Memory.ofList fooBytes 9 = some b9 ∧
      Memory.ofList fooBytes 10 = some b10 ∧ Memory.ofList fooBytes 11 = some b11 ∧
      fooArchive.num_files
        = .ok (b8.val * 2 ^ 24 + b9.val * 2 ^ 16 + b10.val * 2 ^ 8 + b11.val) ∧
      read_uint32 (Memory.ofList fooBytes) 8
        = .ok (b8.val <<< 24 ||| b9.val <<< 16 ||| b10.val <<< 8 ||| b11.val <<< 0) ∧
      (b8.val <<< 24 ||| b9.val <<< 16 ||| b10.val <<< 8 ||| b11.val <<< 0)
        = b8.val * 2 ^ 24 + b9.val * 2 ^ 16 + b10.val * 2 ^ 8 + b11.val ∧
      b8.val * 2 ^ 24 + b9.val * 2 ^ 16 + b10.val * 2 ^ 8 + b11.val < 2 ^ 32 :=
  ⟨⟨by decide, rfl, rfl⟩,
    num_files_big_endian fooArchive 0 (Memory.ofList fooBytes) 35 ⟨by decide, rfl, rfl⟩⟩

theorem get_file_of_le {a : Archive} {d : Memory} {N i : Nat}
    (hs : a.parsing_result_ = .Succeeded) (hd : a.data_ = some d)
    (hN : a.num_files = .ok N) (hi : N ≤ i) :
    a.get_file i = .ok FileAccessor.null := by
  simp [Archive.get_file, hs, hd, hN, hi, bind, Except.bind, pure, Except.pure]

theorem get_file_of_lt {a : Archive} {d : Memory} {N i : Nat}
    (hs : a.parsing_result_ = .Succeeded) (hd : a.data_ = some d)
    (hN : a.num_files = .ok N) (hi : i < N) :
    a.get_file i =
      match big_endian32_at d (offset_offset i) with
      | none => .error .OutOfBounds
      | some record_head =>
        match big_endian32_at d record_head with
        | none => .error .OutOfBounds
        | some body_rel_offset =>
          match big_endian32_at d (record_head + 4) with
          | none => .error .OutOfBounds
          | some size =>
            .ok ⟨some ((record_head + body_rel_offset) % 2 ^ 32), some (record_head + 12), size⟩ := by
  have hi' : ¬ N ≤ i := by omega
  simp only [Archive.get_file, hs, hd, hN, hi', bind, Except.bind, pure, Except.pure,
    read_uint32_eq, ne_eq, not_true_eq_false, if_false]
  cases big_endian32_at d (offset_offset i) with
  | none => rfl
  | some rh =>
    simp only
    cases big_endian32_at d rh with
    | none => rfl
    | some rel =>
      simp only
      cases big_endian32_at d (rh + 4) with
      | none => rfl
      | some sz => rfl

theorem holdsRecord_reads {d : Memory} {i : Nat} (h : d.HoldsRecord i) :
    ∃ record_head body_rel_offset size,
      big_endian32_at d (offset_offset i) = some record_head ∧
      big_endian32_at d record_head = some body_rel_offset ∧
      big_endian32_at d (record_head + 4) = some size := by
  unfold Memory.HoldsRecord at h
  split at h
  · rename_i rh hrh
    obtain ⟨rel, hrel⟩ := readable_big_endian32_at (p := rh) (fun k hk => h k (by omega))
    obtain ⟨sz, hsz⟩ := readable_big_endian32_at (p := rh + 4)
      (fun k hk => by have := h (4 + k) (by omega); rwa [← Nat.add_assoc] at this)
    exact ⟨rh, rel, sz, hrh, hrel, hsz⟩
  · exact h.elim

theorem get_file_valid_of_ok {a : Archive} {d : Memory} {N i : Nat} {f : FileAccessor}
    (hs : a.parsing_result_ = .Succeeded) (hd : a.data_ = some d)
    (hN : a.num_files = .ok N) (hi : i < N) (hf : a.get_file i = .ok f) :
    f.is_valid = true := by
  rw [get_file_of_lt hs hd hN hi] at hf
  split at hf
  · simp at hf
  · split at hf
    · simp at hf
    · split at hf
      · simp at hf
      · simp only [Except.ok.injEq] at hf
        subst hf
        rfl

theorem get_file_error {a : Archive} {d : Memory} {N i : Nat} {e : Fault}
    (hs : a.parsing_result_ = .Succeeded) (hd : a.data_ = some d)
    (hN : a.num_files = .ok N) (hf : a.get_file i = .error e) :
    e = .OutOfBounds ∧ i < N := by
  by_cases hi : i < N
  · rw [get_file_of_lt hs hd hN hi] at hf
    refine ⟨?_, hi⟩
    split at hf
    · simpa using hf.symm
    · split at hf
      · simpa using hf.symm
      · split at hf
        · simpa using hf.symm
        · simp at hf
  · rw [get_file_of_le hs hd hN (by omega)] at hf
    simp at hf

/-- C4. For every successfully parsed archive with `N = num_files()` and every index
`i`: `get_file(i)` is the invalid accessor when `N ≤ i`; it is a valid accessor when `i < N`
and the buffer holds the table entry and the record header that are read; whatever accessor
`get_file(i)` returns is valid exactly when `i < N`; and the only other outcome is the
out-of-bounds read, for an `i < N` whose entry or record the buffer does not hold. -/
theorem get_file_valid_iff (a : Archive) (self : Nat) (d : Memory) (data_size : Nat) (i : Nat)
    (h : a.ParsedFrom self d data_size) :
    ∃ N, a.num_files = .ok N ∧
      (N ≤ i → a.get_file i = .ok FileAccessor.null ∧ FileAccessor.null.is_valid = false) ∧
      (i < N → d.HoldsRecord i → ∃ f, a.get_file i = .ok f ∧ f.is_valid = true) ∧
      (∀ f, a.get_file i = .ok f → (f.is_valid = true ↔ i < N)) ∧
      (∀ e, a.get_file i = .error e → e = .OutOfBounds ∧ i < N ∧ ¬ d.HoldsRecord i) := by
  obtain ⟨hs, hd, _, _, _, _⟩ := parsedFrom_inv h
  obtain ⟨N, hN, _, _⟩ := parsedFrom_num_files h
  have hok : i < N → d.HoldsRecord i → ∃ f, a.get_file i = .ok f ∧ f.is_valid = true := by
    intro hlt hrec
    obtain ⟨rh, rel, sz, h1, h2, h3⟩ := holdsRecord_reads hrec
    refine ⟨⟨some ((rh + rel) % 2 ^ 32), some (rh + 12), sz⟩, ?_, rfl⟩
    rw [get_file_of_lt hs hd hN hlt, h1]
    simp only [h2, h3]
  refine ⟨N, hN, fun hle => ⟨get_file_of_le hs hd hN hle, rfl⟩, hok, ?_, ?_⟩
  · intro f hf
    constructor
    · intro hv
      by_contra hlt
      rw [get_file_of_le hs hd hN (by omega)] at hf
      simp only [Except.ok.injEq] at hf
      subst hf
      simp [FileAccessor.null, FileAccessor.is_valid] at hv
    · intro hlt
      exact get_file_valid_of_ok hs hd hN hlt hf
  · intro e he
    obtain ⟨h1, h2⟩ := get_file_error hs hd hN he
    refine ⟨h1, h2, fun hrec => ?_⟩
    obtain ⟨f, hf, _⟩ := hok h2 hrec
    rw [hf] at he
    simp at he

/-- The theorem `get_file_valid_iff` applied to a concrete archive, with its hypotheses discharged. -/
theorem get_file_valid_iff_witness :
    fooArchive.ParsedFrom 0 (Memory.ofList fooBytes) 35 ∧
    ∃ N, fooArchive.num_files = .ok N ∧
      (N ≤ 0 → fooArchive.get_file 0 = .ok FileAccessor.null ∧
        FileAccessor.null.is_valid = false) ∧
      (0 < N → (Memory.ofList fooBytes).HoldsRecord 0 →
        ∃ f, fooArchive.get_file 0 = .ok f ∧ f.is_valid = true) ∧
      (∀ f, fooArchive.get_file 0 = .ok f → (f.is_valid = true ↔ 0 < N)) ∧
      (∀ e, fooArchive.get_file 0 = .error e →
        e = .OutOfBounds ∧ 0 < N ∧ ¬ (Memory.ofList fooBytes).HoldsRecord 0) :=
  ⟨⟨by decide, rfl, rfl⟩,
    get_file_valid_iff fooArchive 0 (Memory.ofList fooBytes) 35 0 ⟨by decide, rfl, rfl⟩⟩

theorem big_endian32_at_congr {d d0 : Memory} {p : Nat}
    (h : ∀ k, p ≤ k → k < p + 4 → d0 k = d k) :
    big_endian32_at d0 p = big_endian32_at d p := by
  unfold big_endian32_at
  rw [h p (by omega) (by omega), h (p + 1) (by omega) (by omega),
    h (p + 2) (by omega) (by omega), h (p + 3) (by omega) (by omega)]

theorem offset_offset_eq (i : Nat) : offset_offset i = (12 + 4 * i) % 2 ^ 32 := by
  unfold offset_offset
  omega

theorem offset_offset_of_lt {i : Nat} (h : i < 2 ^ 30 - 3) : offset_offset i = 12 + 4 * i := by
  unfold offset_offset
  omega

/-- C5, counterexample.  In the 24-byte archive `wrapBytes` the record of file 0 is at
offset 16 and its body offset from the record head is `0xFFFFFFFF`; `get_file(0).data()` is
at buffer offset 15, not at the plain sum `16 + 4294967295`. -/
theorem get_file_body_offset_not_plain_sum :
    wrapArchive.ParsedFrom 0 (Memory.ofList wrapBytes) 24 ∧
    wrapArchive.num_files = .ok 1 ∧
    big_endian32_at (Memory.ofList wrapBytes) (12 + 4 * 0) = some 16 ∧
    big_endian32_at (Memory.ofList wrapBytes) 16 = some 4294967295 ∧
    (∃ f, wrapArchive.get_file 0 = .ok f ∧ f.data = some 15 ∧
      f.data ≠ some (16 + 4294967295)) :=
  ⟨⟨by decide, rfl, rfl⟩, rfl, rfl, rfl, ⟨_, rfl, rfl, by decide⟩⟩

/-- C5, amended.  For every successfully parsed archive and every `i < num_files()`,
with `record_head` the table entry read for `i`, `body_rel_offset` the big-endian integer at
`record_head` and `size` the one at `record_head + 4`: `get_file(i)` is a valid accessor
with `file_size() = size`, `file_name()` at offset `record_head + 12` and `data()` at offset
`(record_head + body_rel_offset) mod 2^32`, which is the plain sum when that is below `2^32`.
The result is the same for every buffer that agrees on the file count, the table entry and
the first eight bytes of the record, so no other byte, the alignment word at
`record_head + 8` included, influences it. -/
theorem get_file_record (a : Archive) (self : Nat) (d : Memory) (data_size : Nat)
    (N i record_head body_rel_offset size : Nat)
    (h : a.ParsedFrom self d data_size) (hN : a.num_files = .ok N) (hi : i < N)
    (h1 : big_endian32_at d (offset_offset i) = some record_head)
    (h2 : big_endian32_at d record_head = some body_rel_offset)
    (h3 : big_endian32_at d (record_head + 4) = some size) :
    ∃ f, a.get_file i = .ok f ∧ f.is_valid = true ∧
      f.file_size = size ∧
      f.file_name = some (record_head + 12) ∧
      f.data = some ((record_head + body_rel_offset) % 2 ^ 32) ∧
      (record_head + body_rel_offset < 2 ^ 32 → f.data = some (record_head + body_rel_offset)) ∧
      (∀ d0 : Memory,
        (∀ k, (8 ≤ k ∧ k < 12) ∨ (offset_offset i ≤ k ∧ k < offset_offset i + 4) ∨
            (record_head ≤ k ∧ k < record_head + 8) → d0 k = d k) →
        Archive.get_file ⟨a.self, a.parsing_result_, some d0, a.data_size_⟩ i = .ok f) := by
  obtain ⟨hs, hd, _, _, _, _⟩ := parsedFrom_inv h
  refine ⟨⟨some ((record_head + body_rel_offset) % 2 ^ 32), some (record_head + 12), size⟩,
    ?_, rfl, rfl, rfl, rfl, ?_, ?_⟩
  · rw [get_file_of_lt hs hd hN hi, h1]
    simp only [h2, h3]
  · intro hlt
    rw [Nat.mod_eq_of_lt hlt]
    rfl
  · intro d0 hagree
    have e8 : big_endian32_at d0 8 = big_endian32_at d 8 :=
      big_endian32_at_congr (fun k _ _ => hagree k (Or.inl ⟨by omega, by omega⟩))
    have e1 : big_endian32_at d0 (offset_offset i) = some record_head := by
      rw [big_endian32_at_congr (fun k _ _ => hagree k (Or.inr (Or.inl ⟨by omega, by omega⟩)))]
      exact h1
    have e2 : big_endian32_at d0 record_head = some body_rel_offset := by
      rw [big_endian32_at_congr (fun k _ _ => hagree k (Or.inr (Or.inr ⟨by omega, by omega⟩)))]
      exact h2
    have e3 : big_endian32_at d0 (record_head + 4) = some size := by
      rw [big_endian32_at_congr (fun k _ _ => hagree k (Or.inr (Or.inr ⟨by omega, by omega⟩)))]
      exact h3
    have hs0 : (Archive.mk a.self a.parsing_result_ (some d0) a.data_size_).parsing_result_
        = .Succeeded := hs
    have hN0 : Archive.num_files ⟨a.self, a.parsing_result_, some d0, a.data_size_⟩ = .ok N := by
      rw [num_files_of_succeeded hs0 rfl, read_uint32_ok_iff, e8, ← read_uint32_ok_iff,
        ← num_files_of_succeeded hs hd]
      exact hN
    rw [get_file_of_lt hs0 rfl hN0 hi, e1]
    simp only [e2, e3]

/-- The theorem `get_file_record` applied to a concrete archive, with its hypotheses discharged. -/
theorem get_file_record_witness :
    fooArchive.ParsedFrom 0 (Memory.ofList fooBytes) 35 ∧
    fooArchive.num_files = .ok 1 ∧ 0 < 1 ∧
    big_endian32_at (Memory.ofList fooBytes) (offset_offset 0) = some 16 ∧
    big_endian32_at (Memory.ofList fooBytes) 16 = some 16 ∧
    big_endian32_at (Memory.ofList fooBytes) (16 + 4) = some 3 ∧
    ∃ f, fooArchive.get_file 0 = .ok f ∧ f.is_valid = true ∧
      f.file_size = 3 ∧
      f.file_name = some (16 + 12) ∧
      f.data = some ((16 + 16) % 2 ^ 32) ∧
      (16 + 16 < 2 ^ 32 → f.data = some (16 + 16)) ∧
      (∀ d0 : Memory,
        (∀ k, (8 ≤ k ∧ k < 12) ∨ (offset_offset 0 ≤ k ∧ k < offset_offset 0 + 4) ∨
            (16 ≤ k ∧ k < 16 + 8) → d0 k = Memory.ofList fooBytes k) →
        Archive.get_file
          ⟨fooArchive.self, fooArchive.parsing_result_, some d0, fooArchive.data_size_⟩ 0
          = .ok f) :=
  ⟨⟨by decide, rfl, rfl⟩, rfl, by decide, rfl, rfl, rfl,
    get_file_record fooArchive 0 (Memory.ofList fooBytes) 35 1 0 16 16 3
      ⟨by decide, rfl, rfl⟩ rfl (by decide) rfl rfl rfl⟩

theorem hugeMemory_holds : hugeMemory.Holds 4294967295 := by
  intro k hk
  unfold hugeMemory
  by_cases h12 : k < 12
  · rw [if_pos h12]
    interval_cases k <;> rfl
  · rw [if_neg h12, if_pos (by omega)]
    rfl

/-- C6, counterexample.  In `hugeArchive` (file count `0x40000000`) the index
`i = 1073741821` is below the file count and the big-endian integer at offset `12 + 4*i`
is 0, yet `get_file(i)` uses the record offset 1935766115, the integer read at offset 0
(its name pointer is at `1935766115 + 12`, not at `0 + 12`). -/
theorem get_file_table_offset_wraps :
    hugeArchive.ParsedFrom 0 hugeMemory 4294967295 ∧
    hugeArchive.num_files = .ok 1073741824 ∧
    1073741821 < 1073741824 ∧
    big_endian32_at hugeMemory (12 + 4 * 1073741821) = some 0 ∧
    (∃ f, hugeArchive.get_file 1073741821 = .ok f ∧
      f.file_name = some (1935766115 + 12) ∧ f.file_name ≠ some (0 + 12)) :=
  ⟨⟨hugeMemory_holds, rfl, rfl⟩, rfl, by decide, rfl, ⟨_, rfl, rfl, by decide⟩⟩

/-- C6, amended.  For every successfully parsed archive and every `i < num_files()`, the
record offset `get_file(i)` uses is the big-endian integer read at offset
`(12 + 4*i) mod 2^32`, which is `12 + 4*i` for every `i < 2^30 - 3`: the name pointer of the
returned accessor is that integer plus 12, the call is an out-of-bounds read when the buffer
does not hold those four bytes, and it returns when the buffer holds entry and record. -/
theorem get_file_table_entry (a : Archive) (self : Nat) (d : Memory) (data_size : Nat)
    (N i : Nat)
    (h : a.ParsedFrom self d data_size) (hN : a.num_files = .ok N) (hi : i < N) :
    (i < 2 ^ 30 - 3 → (12 + 4 * i) % 2 ^ 32 = 12 + 4 * i) ∧
    (∀ f, a.get_file i = .ok f →
      ∃ record_offset, big_endian32_at d ((12 + 4 * i) % 2 ^ 32) = some record_offset ∧
        f.file_name = some (record_offset + 12)) ∧
    (big_endian32_at d ((12 + 4 * i) % 2 ^ 32) = none → a.get_file i = .error .OutOfBounds) ∧
    (d.HoldsRecord i → ∃ f, a.get_file i = .ok f) := by
  obtain ⟨hs, hd, _, _, _, _⟩ := parsedFrom_inv h
  have hg := get_file_of_lt hs hd hN hi
  rw [offset_offset_eq] at hg
  refine ⟨fun hlt => by omega, ?_, ?_, ?_⟩
  · intro f hf
    rw [hg] at hf
    split at hf
    · simp at hf
    · rename_i rh hrh
      refine ⟨rh, hrh, ?_⟩
      split at hf
      · simp at hf
      · split at hf
        · simp at hf
        · simp only [Except.ok.injEq] at hf
          subst hf
          rfl
  · intro hnone
    rw [hg, hnone]
  · intro hrec
    obtain ⟨rh, rel, sz, e1, e2, e3⟩ := holdsRecord_reads hrec
    rw [offset_offset_eq] at e1
    refine ⟨⟨some ((rh + rel) % 2 ^ 32), some (rh + 12), sz⟩, ?_⟩
    rw [hg, e1]
    simp only [e2, e3]

/-- The theorem `get_file_table_entry` applied to a concrete archive, with its hypotheses discharged. -/
theorem get_file_table_entry_witness :
    fooArchive.ParsedFrom 0 (Memory.ofList fooBytes) 35 ∧
    fooArchive.num_files = .ok 1 ∧ 0 < 1 ∧
    ((0 < 2 ^ 30 - 3 → (12 + 4 * 0) % 2 ^ 32 = 12 + 4 * 0) ∧
    (∀ f, fooArchive.get_file 0 = .ok f →
      ∃ record_offset,
        big_endian32_at (Memory.ofList fooBytes) ((12 + 4 * 0) % 2 ^ 32) = some record_offset ∧
        f.file_name = some (record_offset + 12)) ∧
    (big_endian32_at (Memory.ofList fooBytes) ((12 + 4 * 0) % 2 ^ 32) = none →
      fooArchive.get_file 0 = .error .OutOfBounds) ∧
    ((Memory.ofList fooBytes).HoldsRecord 0 → ∃ f, fooArchive.get_file 0 = .ok f)) :=
  ⟨⟨by decide, rfl, rfl⟩, rfl, by decide,
    get_file_table_entry fooArchive 0 (Memory.ofList fooBytes) 35 1 0
      ⟨by decide, rfl, rfl⟩ rfl (by decide)⟩

theorem find_file_loop_step {a : Archive} {d : Memory} {N i : Nat} {name : CString} {b : Bool}
    (hs : a.parsing_result_ = .Succeeded) (hd : a.data_ = some d)
    (hN : a.num_files = .ok N) (hi : i < N) (hb : a.name_is d i name = .ok b) (left : Nat) :
    a.find_file_loop d name i (left + 1)
      = if b then a.get_file i else a.find_file_loop d name (i + 1) left := by
  unfold Archive.name_is at hb
  cases hg : a.get_file i with
  | error e => simp [hg, bind, Except.bind] at hb
  | ok f =>
    have hv := get_file_valid_of_ok hs hd hN hi hg
    simp only [hg, bind, Except.bind] at hb
    simp only [Archive.find_file_loop, hg, hv, hb, bind, Except.bind, pure, Except.pure,
      Bool.not_true, Bool.false_eq_true, if_false]

theorem find_file_loop_none {a : Archive} {d : Memory} {N : Nat} {name : CString}
    (hs : a.parsing_result_ = .Succeeded) (hd : a.data_ = some d)
    (hN : a.num_files = .ok N) :
    ∀ left i, i + left = N →
      (∀ k, i ≤ k → k < N → a.name_is d k name = .ok false) →
      a.find_file_loop d name i left = .ok FileAccessor.null := by
  intro left
  induction left with
  | zero => intro i _ _; rfl
  | succ left ih =>
    intro i hsum hall
    rw [find_file_loop_step hs hd hN (by omega) (hall i (Nat.le_refl i) (by omega))]
    simp only [Bool.false_eq_true, if_false]
    exact ih (i + 1) (by omega) (fun k hk hlt => hall k (by omega) hlt)

theorem find_file_loop_first {a : Archive} {d : Memory} {N j : Nat} {name : CString}
    (hs : a.parsing_result_ = .Succeeded) (hd : a.data_ = some d)
    (hN : a.num_files = .ok N) (hj : j < N) (hmatch : a.name_is d j name = .ok true) :
    ∀ left i, i + left = N → i ≤ j →
      (∀ k, i ≤ k → k < j → a.name_is d k name = .ok false) →
      a.find_file_loop d name i left = a.get_file j := by
  intro left
  induction left with
  | zero => intro i hsum hij _; omega
  | succ left ih =>
    intro i hsum hij hall
    by_cases heq : i = j
    · subst heq
      rw [find_file_loop_step hs hd hN hj hmatch]
      simp
    · rw [find_file_loop_step hs hd hN (by omega) (hall i (Nat.le_refl i) (by omega))]
      simp only [Bool.false_eq_true, if_false]
      exact ih (i + 1) (by omega) (by omega) (fun k hk hlt => hall k (by omega) hlt)

theorem find_file_of_succeeded {a : Archive} {d : Memory} {N : Nat}
    (hs : a.parsing_result_ = .Succeeded) (hd : a.data_ = some d)
    (hN : a.num_files = .ok N) (name : CString) :
    a.find_file name = a.find_file_loop d name 0 N := by
  simp [Archive.find_file, hs, hd, hN, bind, Except.bind]

theorem first_index_of_spec (name : List Byte) :
    ∀ (l : List (List Byte)) (i : Nat),
      (name ∉ l ∧ first_index_of name l i = none) ∨
      (∃ k, ∃ hk : k < l.length, first_index_of name l i = some (i + k) ∧ l[k] = name ∧
        ∀ m (hm : m < l.length), m < k → l[m] ≠ name) := by
  intro l
  induction l with
  | nil => intro i; left; exact ⟨by simp, rfl⟩
  | cons s rest ih =>
    intro i
    by_cases hs : s = name
    · right
      refine ⟨0, by simp, ?_, ?_, ?_⟩
      · simp [first_index_of, hs]
      · simpa using hs
      · intro m _ hm0
        omega
    · rcases ih (i + 1) with ⟨hnot, hnone⟩ | ⟨k, hk, hsome, hname, hleast⟩
      · left
        refine ⟨?_, ?_⟩
        · simp only [List.mem_cons, not_or]
          exact ⟨fun e => hs e.symm, hnot⟩
        · simp [first_index_of, hs, hnone]
      · right
        refine ⟨k + 1, by simpa using hk, ?_, ?_, ?_⟩
        · simp only [first_index_of, hs, if_false, hsome]
          congr 1
          omega
        · simpa using hname
        · intro m hm hmk
          cases m with
          | zero => simpa using hs
          | succ m =>
            have := hleast m (by simpa using hm) (by omega)
            simpa using this

theorem find_file_of_names {a : Archive} {d : Memory} {N : Nat} {cs : List Byte}
    {names : List (List Byte)}
    (hs : a.parsing_result_ = .Succeeded) (hd : a.data_ = some d) (hN : a.num_files = .ok N)
    (hlen : names.length ≤ N)
    (hnames : ∀ i (hi : i < names.length), ∃ f p, a.get_file i = .ok f ∧
      f.file_name = some p ∧ d.HoldsCString p names[i])
    (hname : ∀ i (hi : i < names.length),
      a.name_is d i (some cs) = .ok (decide (names[i] = c_str cs)))
    (hscan : names.length = N ∨ c_str cs ∈ names) :
    (∀ j (hj : j < names.length), names[j] = c_str cs →
        (∀ i (hi : i < names.length), i < j → names[i] ≠ c_str cs) →
        ∃ f p, a.find_file (some cs) = .ok f ∧ a.get_file j = .ok f ∧ f.is_valid = true ∧
          f.file_name = some p ∧ d.HoldsCString p (c_str cs)) ∧
    (c_str cs ∉ names →
        a.find_file (some cs) = .ok FileAccessor.null ∧ FileAccessor.null.is_valid = false) := by
  constructor
  · intro j hj hmatch hleast
    obtain ⟨f, p, hg, hp, hh⟩ := hnames j hj
    have hjN : j < N := by omega
    have hm : a.name_is d j (some cs) = .ok true := by
      rw [hname j hj]
      simp [hmatch]
    have hbefore : ∀ k, 0 ≤ k → k < j → a.name_is d k (some cs) = .ok false := by
      intro k _ hk
      have hkl : k < names.length := by omega
      rw [hname k hkl]
      simp [hleast k hkl hk]
    refine ⟨f, p, ?_, hg, get_file_valid_of_ok hs hd hN hjN hg, hp, ?_⟩
    · rw [find_file_of_succeeded hs hd hN,
        find_file_loop_first hs hd hN hjN hm N 0 (by omega) (by omega) hbefore]
      exact hg
    · rw [← hmatch]
      exact hh
  · intro hnot
    have hall : names.length = N := by
      rcases hscan with h | h
      · exact h
      · exact absurd h hnot
    refine ⟨?_, rfl⟩
    rw [find_file_of_succeeded hs hd hN]
    apply find_file_loop_none hs hd hN N 0 (by omega)
    intro k _ hk
    have hkl : k < names.length := by omega
    rw [hname k hkl]
    have hne : names[k] ≠ c_str cs := fun e => hnot (e ▸ List.getElem_mem _)
    simp [hne]

/-- C7. For every successfully parsed archive with `N` files and every present query
name `cs`, where `names` lists the names stored in the buffer for the files `0, 1, ...`
(each a null-terminated string at the name pointer of `get_file(i)`), either for all `N`
files or for a first part of them that already contains the query name: `find_file`
returns `get_file(j)` for the first index `j` whose stored name is byte-equal to the query
(compared up to the terminator), and the invalid accessor when no stored name is.  If `j`
is the least index with that name the result is exactly `get_file(j)`, it is valid and the
string at its name pointer is the query name; if no file has the name the result is
invalid; so the result is valid exactly when some file has that name. -/
theorem find_file_first_match (a : Archive) (self : Nat) (d : Memory) (data_size N : Nat)
    (cs : List Byte) (names : List (List Byte))
    (h : a.ParsedFrom self d data_size) (hN : a.num_files = .ok N)
    (hlen : names.length ≤ N)
    (hnames : ∀ i (hi : i < names.length), ∃ f p, a.get_file i = .ok f ∧
      f.file_name = some p ∧ d.HoldsCString p names[i])
    (hscan : names.length = N ∨ c_str cs ∈ names) :
    a.find_file (some cs)
      = (match first_index_of (c_str cs) names 0 with
        | some j => a.get_file j
        | none => .ok FileAccessor.null) ∧
    (∀ j (hj : j < names.length), names[j] = c_str cs →
        (∀ i (hi : i < names.length), i < j → names[i] ≠ c_str cs) →
        ∃ f p, a.find_file (some cs) = .ok f ∧ a.get_file j = .ok f ∧ f.is_valid = true ∧
          f.file_name = some p ∧ d.HoldsCString p (c_str cs)) ∧
    (c_str cs ∉ names →
        a.find_file (some cs) = .ok FileAccessor.null ∧ FileAccessor.null.is_valid = false) ∧
    (∃ f, a.find_file (some cs) = .ok f ∧ (f.is_valid = true ↔ c_str cs ∈ names)) := by
  obtain ⟨hs, hd, _, _, _, _⟩ := parsedFrom_inv h
  have hstrcmp : ∀ (qs : List Byte) (p : Nat) (s : List Byte), d.HoldsCString p s →
      strcmp_loop d p qs = .ok (decide (s = c_str qs)) := by
    intro cs
    induction cs with
    | nil =>
      intro p s h
      cases s with
      | nil =>
        simp only [Memory.HoldsCString] at h
        simp [strcmp_loop, load_eq_ok h, c_str, bind, Except.bind, pure, Except.pure]
      | cons b s =>
        obtain ⟨hb, hne, _⟩ := h
        simp [strcmp_loop, load_eq_ok hb, c_str, hne, bind, Except.bind, pure, Except.pure]
    | cons q qs ih =>
      intro p s h
      cases s with
      | nil =>
        simp only [Memory.HoldsCString] at h
        by_cases hq : q = 0
        · subst hq
          simp [strcmp_loop, load_eq_ok h, c_str, bind, Except.bind, pure, Except.pure]
        · have hq2 : ¬ (0 : Byte) = q := fun e => hq e.symm
          simp [strcmp_loop, load_eq_ok h, c_str, hq, hq2, bind, Except.bind, pure, Except.pure]
      | cons b s =>
        obtain ⟨hb, hne, hrest⟩ := h
        by_cases hbq : b = q
        · subst hbq
          simp [strcmp_loop, load_eq_ok hb, c_str, hne, ih (p + 1) s hrest, bind, Except.bind,
            pure, Except.pure]
        · by_cases hq : q = 0
          · simp [strcmp_loop, load_eq_ok hb, c_str, hbq, hq, hne, bind, Except.bind, pure,
              Except.pure]
          · simp [strcmp_loop, load_eq_ok hb, c_str, hbq, hq, hne, bind, Except.bind, pure,
              Except.pure]
  have hname : ∀ i (hi : i < names.length),
      a.name_is d i (some cs) = .ok (decide (names[i] = c_str cs)) := by
    intro i hi
    obtain ⟨f, p, hg, hp, hh⟩ := hnames i hi
    simp only [Archive.name_is, hg, hp, bind, Except.bind, strcmp_is_zero]
    exact hstrcmp cs p _ hh
  obtain ⟨hfound, hnone⟩ := find_file_of_names hs hd hN hlen hnames hname hscan
  refine ⟨?_, hfound, hnone, ?_⟩
  · rcases first_index_of_spec (c_str cs) names 0 with ⟨hnot, hidx⟩ | ⟨k, hk, hidx, hname, hleast⟩
    · rw [hidx]
      exact (hnone hnot).1
    · rw [hidx, Nat.zero_add]
      obtain ⟨f, _, hf, hg, _⟩ := hfound k hk hname hleast
      rw [hf]
      exact hg.symm
  · rcases first_index_of_spec (c_str cs) names 0 with ⟨hnot, _⟩ | ⟨k, hk, _, hname, hleast⟩
    · refine ⟨FileAccessor.null, (hnone hnot).1, ?_⟩
      constructor
      · intro hv
        simp [FileAccessor.null, FileAccessor.is_valid] at hv
      · intro hmem
        exact absurd hmem hnot
    · obtain ⟨f, _, hf, _, hv, _⟩ := hfound k hk hname hleast
      exact ⟨f, hf, fun _ => hname ▸ List.getElem_mem _, fun _ => hv⟩

/-- The theorem `find_file_first_match` applied to the two-entry archive
`twoEntryArchive` and the name `foo`: the stored name of file 0 is known and is the query
name, the second table entry is outside the buffer and is never looked at; the lookup
evaluates to `get_file(0)`. -/
theorem find_file_first_match_witness :
    twoEntryArchive.ParsedFrom 0 (Memory.ofList twoEntryBytes) 39 ∧
    twoEntryArchive.num_files = .ok 2 ∧
    [fooName].length ≤ 2 ∧
    (∀ i (hi : i < [fooName].length), ∃ f p, twoEntryArchive.get_file i = .ok f ∧
      f.file_name = some p ∧ (Memory.ofList twoEntryBytes).HoldsCString p [fooName][i]) ∧
    ([fooName].length = 2 ∨ c_str fooName ∈ [fooName]) ∧
    (twoEntryArchive.find_file (some fooName)
      = (match first_index_of (c_str fooName) [fooName] 0 with
        | some j => twoEntryArchive.get_file j
        | none => .ok FileAccessor.null) ∧
    (∀ j (hj : j < [fooName].length), [fooName][j] = c_str fooName →
        (∀ i (hi : i < [fooName].length), i < j → [fooName][i] ≠ c_str fooName) →
        ∃ f p, twoEntryArchive.find_file (some fooName) = .ok f ∧
          twoEntryArchive.get_file j = .ok f ∧ f.is_valid = true ∧
          f.file_name = some p ∧ (Memory.ofList twoEntryBytes).HoldsCString p (c_str fooName)) ∧
    (c_str fooName ∉ [fooName] →
        twoEntryArchive.find_file (some fooName) = .ok FileAccessor.null ∧
        FileAccessor.null.is_valid = false) ∧
    (∃ f, twoEntryArchive.find_file (some fooName) = .ok f ∧
      (f.is_valid = true ↔ c_str fooName ∈ [fooName]))) ∧
    twoEntryArchive.find_file (some fooName) = twoEntryArchive.get_file 0 ∧
    twoEntryArchive.find_file (some fooName) = .ok ⟨some 36, some 32, 3⟩ :=
  have hnames : ∀ i (hi : i < [fooName].length), ∃ f p, twoEntryArchive.get_file i = .ok f ∧
      f.file_name = some p ∧ (Memory.ofList twoEntryBytes).HoldsCString p [fooName][i] := by
    intro i hi
    have h0 : i = 0 := by simpa using hi
    subst h0
    exact ⟨⟨some 36, some 32, 3⟩, 32, rfl, rfl, rfl, by decide, rfl, by decide, rfl, by decide,
      rfl⟩
  ⟨⟨by decide, rfl, rfl⟩, rfl, by decide, hnames, Or.inr (by decide),
    find_file_first_match twoEntryArchive 0 (Memory.ofList twoEntryBytes) 39 2 fooName
      [fooName] ⟨by decide, rfl, rfl⟩ rfl (by decide) hnames (Or.inr (by decide)), rfl, rfl⟩

/-- The name lookup evaluated on archives with several files.  In `threeFileArchive`
(files `a`, `b`, `a`) the name `a` gives file 0, not file 2, the name `b` gives file 1, and
the name `c` gives the invalid accessor; in `twoEntryArchive` the name `foo` gives file 0
although `get_file(1)` is an out-of-bounds read, and a name that file 0 does not have runs
into that read. -/
theorem find_file_examples :
    threeFileArchive.ParsedFrom 0 (Memory.ofList threeFileBytes) 72 ∧
    threeFileArchive.num_files = .ok 3 ∧
    threeFileArchive.get_file 0 = .ok ⟨some 40, some 36, 0⟩ ∧
    threeFileArchive.get_file 1 = .ok ⟨some 56, some 52, 0⟩ ∧
    threeFileArchive.get_file 2 = .ok ⟨some 72, some 68, 0⟩ ∧
    threeFileArchive.find_file (some [0x61]) = .ok ⟨some 40, some 36, 0⟩ ∧
    threeFileArchive.find_file (some [0x62]) = .ok ⟨some 56, some 52, 0⟩ ∧
    threeFileArchive.find_file (some [0x63]) = .ok FileAccessor.null ∧
    threeFileArchive.find_file (some [0x61, 0x00, 0x7A]) = .ok ⟨some 40, some 36, 0⟩ ∧
    twoEntryArchive.get_file 1 = .error .OutOfBounds ∧
    twoEntryArchive.find_file (some fooName) = .ok ⟨some 36, some 32, 3⟩ ∧
    twoEntryArchive.find_file (some [0x66]) = .error .OutOfBounds :=
  ⟨⟨by decide, rfl, rfl⟩, rfl, rfl, rfl, rfl, rfl, rfl, rfl, rfl, rfl, rfl, rfl⟩

/-- C8. The archive `fooArchive` is successfully parsed and has one file; `find_file`
with the null name does not return an invalid accessor there: it hands the null pointer to
`std::strcmp`, which dereferences it. -/
theorem find_file_null_name_faults :
    fooArchive.ParsedFrom 0 (Memory.ofList fooBytes) 35 ∧
    fooArchive.num_files = .ok 1 ∧
    fooArchive.find_file none = .error .NullPointer :=
  ⟨⟨by decide, rfl, rfl⟩, rfl, rfl⟩

/-- C9, counterexample.  For the 35-byte example buffer (body bytes `AA BB CC`),
construction succeeds and `num_files()` is 1, but the name of `get_file(0)` is not `foo` and
its size is not 3. -/
theorem spec_example_file_is_not_foo :
    (specExample 0xAA 0xBB 0xCC).ParsedFrom 0 (Memory.ofList (specExampleBytes 0xAA 0xBB 0xCC)) 35 ∧
    (specExample 0xAA 0xBB 0xCC).num_files = .ok 1 ∧
    (∃ f, (specExample 0xAA 0xBB 0xCC).get_file 0 = .ok f ∧
      strcmp_is_zero (Memory.ofList (specExampleBytes 0xAA 0xBB 0xCC)) f.file_name (some fooName)
        = .ok false ∧
      f.file_size ≠ 3) :=
  ⟨⟨by decide, rfl, rfl⟩, rfl, ⟨_, rfl, rfl, by decide⟩⟩

theorem specExampleBytes_holds (x y z : Byte) :
    (Memory.ofList (specExampleBytes x y z)).Holds 35 := by
  intro k hk
  interval_cases k <;> rfl

theorem fooBuffer_holds (x y z : Byte) : (Memory.ofList (fooBuffer x y z)).Holds 35 := by
  intro k hk
  interval_cases k <;> rfl

/-- C9, amended.  For the 35-byte example buffer, whatever its three body bytes,
construction succeeds, `num_files()` is 1 and `get_file(0)` is valid; its table entry
`00 00 00 0C` makes the record start at offset 12, so the name (at offset 24) is the empty
string and the size is 16.  With the table entry `00 00 00 10` instead, `get_file(0)` is
valid with name `foo` (at offset 28), size 3 and body at offset 32. -/
theorem spec_example_files (x y z : Byte) :
    ((specExample x y z).ParsedFrom 0 (Memory.ofList (specExampleBytes x y z)) 35 ∧
      (specExample x y z).num_files = .ok 1 ∧
      ∃ f, (specExample x y z).get_file 0 = .ok f ∧ f.is_valid = true ∧
        f.file_name = some 24 ∧
        strcmp_is_zero (Memory.ofList (specExampleBytes x y z)) f.file_name (some []) = .ok true ∧
        f.file_size = 16) ∧
    (Archive.ParsedFrom ⟨0, .Succeeded, some (Memory.ofList (fooBuffer x y z)), 35⟩ 0
        (Memory.ofList (fooBuffer x y z)) 35 ∧
      Archive.num_files ⟨0, .Succeeded, some (Memory.ofList (fooBuffer x y z)), 35⟩ = .ok 1 ∧
      ∃ f, Archive.get_file ⟨0, .Succeeded, some (Memory.ofList (fooBuffer x y z)), 35⟩ 0 = .ok f ∧
        f.is_valid = true ∧ f.file_name = some 28 ∧
        strcmp_is_zero (Memory.ofList (fooBuffer x y z)) f.file_name (some fooName) = .ok true ∧
        f.file_size = 3 ∧ f.data = some 32) :=
  ⟨⟨⟨specExampleBytes_holds x y z, rfl, rfl⟩, rfl, ⟨_, rfl, rfl, rfl, rfl, rfl⟩⟩,
    ⟨⟨fooBuffer_holds x y z, rfl, rfl⟩, rfl, ⟨_, rfl, rfl, rfl, rfl, rfl, rfl⟩⟩⟩

theorem num_files_lt {a : Archive} {N : Nat} (hN : a.num_files = .ok N) : N < 2 ^ 32 := by
  unfold Archive.num_files at hN
  split at hN
  · simp only [pure, Except.pure, Except.ok.injEq] at hN
    omega
  · split at hN
    · simp at hN
    · exact read_uint32_lt hN

theorem operator_ne_same {a : Archive} (i j : Nat) :
    operator_ne ⟨some a, i⟩ ⟨some a, j⟩ = .ok (decide (i ≠ j)) := by
  simp [operator_ne, operator_eq, bind, Except.bind, pure, Except.pure]

theorem operator_star_of_lt {a : Archive} {N i : Nat} (hN : a.num_files = .ok N) (hi : i < N) :
    Iterator.operator_star ⟨some a, i⟩ = a.get_file i := by
  simp [Iterator.operator_star, hN, hi, bind, Except.bind]

theorem operator_pre_inc_of_lt {a : Archive} {N i : Nat} (hN : a.num_files = .ok N)
    (hi : i < N) :
    Iterator.operator_pre_inc ⟨some a, i⟩ = .ok ⟨some a, i + 1⟩ := by
  have hlt := num_files_lt hN
  have hmod : (i + 1) % 2 ^ 32 = i + 1 := Nat.mod_eq_of_lt (by omega)
  simp only [Iterator.operator_pre_inc, hN, hi, bind, Except.bind, pure, Except.pure, if_true,
    hmod]

theorem enumerate_loop_step {a : Archive} {N i : Nat} {f : FileAccessor}
    (hN : a.num_files = .ok N) (hi : i < N) (hf : a.get_file i = .ok f) (fuel : Nat) :
    enumerate_loop a (fuel + 1) ⟨some a, i⟩ =
      (enumerate_loop a fuel ⟨some a, i + 1⟩).map (fun r => r.map (fun fs => f :: fs)) := by
  have hne : i ≠ N := by omega
  simp only [enumerate_loop, end_eq hN, operator_ne_same, operator_star_of_lt hN hi, hf,
    operator_pre_inc_of_lt hN hi, bind, Except.bind, pure, Except.pure, hne, ne_eq,
    not_false_eq_true, decide_True, if_true]
  cases enumerate_loop a fuel ⟨some a, i + 1⟩ <;> rfl

theorem enumerate_loop_done {a : Archive} {N : Nat} (hN : a.num_files = .ok N) (fuel : Nat) :
    enumerate_loop a (fuel + 1) ⟨some a, N⟩ = .ok (some []) := by
  simp [enumerate_loop, end_eq hN, operator_ne_same, bind, Except.bind, pure, Except.pure]

theorem enumerate_loop_yields {a : Archive} {N : Nat} {fs : List FileAccessor}
    (hN : a.num_files = .ok N) (hlen : fs.length = N)
    (hget : ∀ i (hi : i < fs.length), a.get_file i = .ok fs[i]) :
    ∀ fuel i, i ≤ N → N - i < fuel →
      enumerate_loop a fuel ⟨some a, i⟩ = .ok (some (fs.drop i)) := by
  intro fuel
  induction fuel with
  | zero => intro i _ h; omega
  | succ fuel ih =>
    intro i hi hfuel
    by_cases heq : i = N
    · subst heq
      rw [enumerate_loop_done hN, ← hlen, List.drop_length]
    · have hlt : i < fs.length := by omega
      rw [enumerate_loop_step hN (by omega) (hget i hlt), ih (i + 1) (by omega) (by omega),
        List.drop_eq_getElem_cons hlt]
      rfl

theorem enumerate_loop_out_of_fuel {a : Archive} {N : Nat} {fs : List FileAccessor}
    (hN : a.num_files = .ok N) (hlen : fs.length = N)
    (hget : ∀ i (hi : i < fs.length), a.get_file i = .ok fs[i]) :
    ∀ fuel i, i ≤ N → fuel ≤ N - i →
      enumerate_loop a fuel ⟨some a, i⟩ = .ok none := by
  intro fuel
  induction fuel with
  | zero => intro i _ _; rfl
  | succ fuel ih =>
    intro i hi hfuel
    have hlt : i < fs.length := by omega
    rw [enumerate_loop_step hN (by omega) (hget i hlt), ih (i + 1) (by omega) (by omega)]
    rfl

/-- C10. For every archive with `N = num_files()` whose `get_file(i)` returns `fs[i]`
for each `i < N`: the loop `it = begin(); while (it != end()) { yield *it; ++it; }` ends
without a failed assertion once it may evaluate its condition more than `N` times, having
yielded exactly `fs = [get_file(0), ..., get_file(N-1)]` in that order (so `N` iterations);
with `N` or fewer evaluations of the condition it has not ended. -/
theorem enumerate_visits_all (a : Archive) (N : Nat) (fs : List FileAccessor)
    (hN : a.num_files = .ok N) (hlen : fs.length = N)
    (hget : ∀ i (hi : i < fs.length), a.get_file i = .ok fs[i]) :
    (∀ fuel, N < fuel → a.enumerate fuel = .ok (some fs)) ∧
    (∀ fuel, fuel ≤ N → a.enumerate fuel = .ok none) := by
  constructor
  · intro fuel hfuel
    simp only [Archive.enumerate, begin_eq hN, bind, Except.bind]
    rw [enumerate_loop_yields hN hlen hget fuel 0 (by omega) (by omega)]
    rfl
  · intro fuel hfuel
    simp only [Archive.enumerate, begin_eq hN, bind, Except.bind]
    exact enumerate_loop_out_of_fuel hN hlen hget fuel 0 (by omega) (by omega)

theorem enumerate_visits_all_witness :
    fooArchive.num_files = .ok 1 ∧
    (∀ i (hi : i < [(⟨some 32, some 28, 3⟩ : FileAccessor)].length),
      fooArchive.get_file i = .ok [(⟨some 32, some 28, 3⟩ : FileAccessor)][i]) ∧
    ((∀ fuel, 1 < fuel → fooArchive.enumerate fuel = .ok (some [⟨some 32, some 28, 3⟩])) ∧
    (∀ fuel, fuel ≤ 1 → fooArchive.enumerate fuel = .ok none)) :=
  have hget : ∀ i (hi : i < [(⟨some 32, some 28, 3⟩ : FileAccessor)].length),
      fooArchive.get_file i = .ok [(⟨some 32, some 28, 3⟩ : FileAccessor)][i] := by
    intro i hi
    have h0 : i = 0 := by simpa using hi
    subst h0
    rfl
  ⟨rfl, hget, enumerate_visits_all fooArchive 1 [⟨some 32, some 28, 3⟩] rfl rfl hget⟩

/-- C11. For every accessor, whatever body pointer, name pointer and size it was
constructed with: `is_valid()` holds exactly when the body pointer is present; when it is
not valid, `data()` and `file_name()` are absent and `file_size()` is 0; when it is valid
the three accessors return the stored body, name and size unchanged.  The accessor made by
the default and the `nullptr` constructors is invalid. -/
theorem file_accessor_accessors (body name : Option Nat) (size : Nat) :
    ((FileAccessor.mk body name size).is_valid = true ↔ body ≠ none) ∧
    ((FileAccessor.mk body name size).is_valid = false →
      (FileAccessor.mk body name size).data = none ∧
      (FileAccessor.mk body name size).file_name = none ∧
      (FileAccessor.mk body name size).file_size = 0) ∧
    ((FileAccessor.mk body name size).is_valid = true →
      (FileAccessor.mk body name size).data = body ∧
      (FileAccessor.mk body name size).file_name = name ∧
      (FileAccessor.mk body name size).file_size = size) ∧
    FileAccessor.null.is_valid = false := by
  cases body with
  | none => simp [FileAccessor.is_valid, FileAccessor.data, FileAccessor.file_name,
      FileAccessor.file_size, FileAccessor.null]
  | some p => simp [FileAccessor.is_valid, FileAccessor.data, FileAccessor.file_name,
      FileAccessor.file_size, FileAccessor.null]

theorem to_uint32_of_range {x : Int} (h0 : 0 ≤ x) (h1 : x < 2 ^ 32) : to_uint32 x = x.toNat := by
  unfold to_uint32
  omega

theorem to_uint32_natCast {n : Nat} (h : n < 2 ^ 32) : to_uint32 (n : Int) = n := by
  unfold to_uint32
  omega

theorem to_uint32_lt (x : Int) : to_uint32 x < 2 ^ 32 := by
  unfold to_uint32
  omega

theorem to_int32_of_range {k : Int} (h0 : -2 ^ 31 ≤ k) (h1 : k < 2 ^ 31) : to_int32 k = k := by
  unfold to_int32
  omega

theorem to_int32_range (x : Int) : -2 ^ 31 ≤ to_int32 x ∧ to_int32 x < 2 ^ 31 := by
  unfold to_int32
  omega

theorem to_uint32_add_to_int32 (x y : Int) : to_uint32 (x + to_int32 y) = to_uint32 (x + y) := by
  unfold to_uint32 to_int32
  omega

theorem to_uint32_add_to_uint32 (x y : Int) :
    to_uint32 ((to_uint32 x : Int) + y) = to_uint32 (x + y) := by
  unfold to_uint32
  omega

theorem iterator_ctor_of_le {a : Archive} {N i : Nat} (hN : a.num_files = .ok N) (hi : i ≤ N) :
    Iterator.ctor (some a) i = .ok ⟨some a, i⟩ := by
  simp [Iterator.ctor, hN, hi, bind, Except.bind, pure, Except.pure]

theorem iterator_ctor_ok_inv {a : Archive} {N i : Nat} {it : Iterator}
    (hN : a.num_files = .ok N) (h : Iterator.ctor (some a) i = .ok it) :
    it = ⟨some a, i⟩ ∧ i ≤ N := by
  simp only [Iterator.ctor, hN, bind, Except.bind, pure, Except.pure] at h
  split at h
  · rename_i hle
    simp only [Except.ok.injEq] at h
    exact ⟨h.symm, hle⟩
  · simp at h

theorem operator_add_eq {it : Iterator} {a : Archive} {N : Nat} (k : Int)
    (ha : it.archive_ = some a) (hN : a.num_files = .ok N) :
    operator_add it k =
      if to_uint32 ((it.file_index_ : Int) + k) ≤ N
      then .ok ⟨some a, to_uint32 ((it.file_index_ : Int) + k)⟩
      else .error .AssertionFailed := by
  simp only [operator_add, ha, hN, bind, Except.bind]
  split
  · rename_i hle
    exact iterator_ctor_of_le hN hle
  · rfl

theorem operator_add_ok_inv {it it2 : Iterator} {a : Archive} {N : Nat} {k : Int}
    (ha : it.archive_ = some a) (hN : a.num_files = .ok N)
    (h : operator_add it k = .ok it2) :
    it2 = ⟨some a, to_uint32 ((it.file_index_ : Int) + k)⟩ ∧
      to_uint32 ((it.file_index_ : Int) + k) ≤ N := by
  rw [operator_add_eq k ha hN] at h
  split at h
  · rename_i hle
    simp only [Except.ok.injEq] at h
    exact ⟨h.symm, hle⟩
  · simp at h

theorem operator_add_of_range {it : Iterator} {a : Archive} {N : Nat} {k : Int}
    (ha : it.archive_ = some a) (hN : a.num_files = .ok N)
    (h0 : 0 ≤ (it.file_index_ : Int) + k) (h1 : (it.file_index_ : Int) + k ≤ N) :
    operator_add it k = .ok ⟨some a, ((it.file_index_ : Int) + k).toNat⟩ := by
  have hlt := num_files_lt hN
  have hu : to_uint32 ((it.file_index_ : Int) + k) = ((it.file_index_ : Int) + k).toNat :=
    to_uint32_of_range h0 (by omega)
  rw [operator_add_eq k ha hN, hu, if_pos (by omega)]

theorem operator_eq_same {a : Archive} (i j : Nat) :
    operator_eq ⟨some a, i⟩ ⟨some a, j⟩ = .ok (decide (i = j)) := by
  simp [operator_eq, pure, Except.pure]

theorem int32_arith_of_range {x : Int} (h0 : -2 ^ 31 ≤ x) (h1 : x < 2 ^ 31) :
    int32_arith x = .ok x := by
  unfold int32_arith
  rw [if_pos ⟨h0, h1⟩]
  rfl

/-- C12, counterexample.  In `maxCountArchive` (file count `2^32 - 1`) the cursor at index
`2^31 - 1` and the offset 1 satisfy the conditions: `it + 1` is the cursor at index `2^31`.
The subtraction `(it + 1) - it` converts the indices to `-2^31` and `2^31 - 1` and
subtracts them as `std::int32_t`: the exact result `-2^32 + 1` does not fit, a signed
overflow, so the code does not yield 1 there. -/
theorem diff_across_sign_bit_overflows :
    midCursor.archive_ = some maxCountArchive ∧
    maxCountArchive.num_files = .ok 4294967295 ∧
    (-2 ^ 31 ≤ (1 : Int)) ∧ ((1 : Int) < 2 ^ 31) ∧
    (0 ≤ (midCursor.file_index_ : Int) + 1) ∧
    ((midCursor.file_index_ : Int) + 1 ≤ (4294967295 : Nat)) ∧
    operator_add midCursor 1 = .ok ⟨some maxCountArchive, 2147483648⟩ ∧
    to_int32 ((2147483648 : Nat) : Int) = -2147483648 ∧
    to_int32 (midCursor.file_index_ : Int) = 2147483647 ∧
    operator_diff ⟨some maxCountArchive, 2147483648⟩ midCursor = .error .SignedOverflow ∧
    operator_diff ⟨some maxCountArchive, 2147483648⟩ midCursor ≠ .ok 1 :=
  ⟨rfl, rfl, by decide, by decide, by decide, by decide, rfl, by decide, by decide, rfl,
    by simp [operator_diff, midCursor, int32_arith, to_int32]⟩

/-- C12, amended.  For every cursor `it` over an archive with `N = num_files()` and every
signed 32-bit offset `k` such that the index of `it` plus `k` lies in `[0, N]` and that
sum and the index of `it` are both below `2^31` or both at least `2^31`: `it + k` is the
cursor of the same archive at that index, and `(it + k) - it` is `k`; the two conversions
to `std::int32_t` and their subtraction give `k` exactly, without overflow. -/
theorem add_then_diff (it : Iterator) (a : Archive) (N : Nat) (k : Int)
    (ha : it.archive_ = some a) (hN : a.num_files = .ok N)
    (hk0 : -2 ^ 31 ≤ k) (hk1 : k < 2 ^ 31)
    (h0 : 0 ≤ (it.file_index_ : Int) + k) (h1 : (it.file_index_ : Int) + k ≤ N)
    (hside : ((it.file_index_ : Int) < 2 ^ 31 ∧ (it.file_index_ : Int) + k < 2 ^ 31) ∨
      (2 ^ 31 ≤ (it.file_index_ : Int) ∧ 2 ^ 31 ≤ (it.file_index_ : Int) + k)) :
    ∃ moved, operator_add it k = .ok moved ∧
      moved.archive_ = some a ∧ (moved.file_index_ : Int) = it.file_index_ + k ∧
      operator_diff moved it = .ok k ∧
      to_int32 moved.file_index_ - to_int32 it.file_index_ = k := by
  have hlt := num_files_lt hN
  have hidx : ((((it.file_index_ : Int) + k).toNat : Nat) : Int) = it.file_index_ + k := by
    omega
  have hexact : to_int32 ((((it.file_index_ : Int) + k).toNat : Nat) : Int)
      - to_int32 (it.file_index_ : Int) = k := by
    rw [hidx]
    unfold to_int32
    omega
  refine ⟨⟨some a, ((it.file_index_ : Int) + k).toNat⟩,
    operator_add_of_range ha hN h0 h1, rfl, hidx, ?_, hexact⟩
  simp only [operator_diff, ha, hexact]
  exact int32_arith_of_range hk0 hk1

theorem iterator_eta {it : Iterator} {a : Archive} (ha : it.archive_ = some a) :
    it = ⟨some a, it.file_index_⟩ := by
  cases it
  simp only at ha
  subst ha
  rfl

theorem operator_add_zero {it : Iterator} {a : Archive} {N : Nat}
    (ha : it.archive_ = some a) (hN : a.num_files = .ok N) (hidx : it.file_index_ ≤ N) :
    operator_add it 0 = .ok it := by
  have hlt := num_files_lt hN
  have hu : to_uint32 ((it.file_index_ : Int) + 0) = it.file_index_ := by
    rw [Int.add_zero]
    exact to_uint32_natCast (by omega)
  rw [operator_add_eq 0 ha hN, hu, if_pos hidx]
  exact congrArg Except.ok (iterator_eta ha).symm

theorem operator_add_add {it x y z : Iterator} {ar : Archive} {N : Nat} {a b : Int}
    (har : it.archive_ = some ar) (hN : ar.num_files = .ok N)
    (hx : operator_add it a = .ok x) (hy : operator_add x b = .ok y)
    (hz : operator_add it (to_int32 (a + b)) = .ok z) :
    y = z ∧ operator_eq y z = .ok true := by
  obtain ⟨ex, _⟩ := operator_add_ok_inv har hN hx
  have hxa : x.archive_ = some ar := by rw [ex]
  obtain ⟨ey, _⟩ := operator_add_ok_inv hxa hN hy
  obtain ⟨ez, _⟩ := operator_add_ok_inv har hN hz
  have hidx : to_uint32 ((x.file_index_ : Int) + b)
      = to_uint32 ((it.file_index_ : Int) + to_int32 (a + b)) := by
    rw [ex]
    simp only
    rw [to_uint32_add_to_uint32, to_uint32_add_to_int32, Int.add_assoc]
  have hyz : y = z := by rw [ey, ez, hidx]
  refine ⟨hyz, ?_⟩
  rw [hyz, ez, operator_eq_same]
  simp

/-- C13. For every cursor `it` of an archive with index in `[0, N]` and offsets `a` and
`b`: whenever `it + a`, `(it + a) + b` and `it + (a + b)` are evaluated without a failed
precondition, with `a + b` taken as a `std::int32_t`, the two results are the same cursor
(same archive, same index) and compare equal, in both argument orders of `operator+`;
`a + b` is the plain sum when it fits; both sides are evaluated without failure when
`index + a` and `index + a + b` lie in `[0, N]`; and `it + 0` and `0 + it` are `it`. -/
theorem add_add_and_add_zero (it : Iterator) (ar : Archive) (N : Nat) (a b : Int)
    (har : it.archive_ = some ar) (hN : ar.num_files = .ok N) (hidx : it.file_index_ ≤ N) :
    (∀ x y z, operator_add it a = .ok x → operator_add x b = .ok y →
      operator_add it (to_int32 (a + b)) = .ok z → y = z ∧ operator_eq y z = .ok true) ∧
    (∀ x y z, operator_add_left a it = .ok x → operator_add_left b x = .ok y →
      operator_add_left (to_int32 (a + b)) it = .ok z → y = z ∧ operator_eq y z = .ok true) ∧
    (-2 ^ 31 ≤ a + b → a + b < 2 ^ 31 → to_int32 (a + b) = a + b) ∧
    (0 ≤ (it.file_index_ : Int) + a → (it.file_index_ : Int) + a ≤ N →
      0 ≤ (it.file_index_ : Int) + a + b → (it.file_index_ : Int) + a + b ≤ N →
      ∃ x y, operator_add it a = .ok x ∧ operator_add x b = .ok y ∧
        operator_add it (to_int32 (a + b)) = .ok y) ∧
    operator_add it 0 = .ok it ∧ operator_add_left 0 it = .ok it ∧
    operator_eq it it = .ok true := by
  have hlt := num_files_lt hN
  refine ⟨fun x y z hx hy hz => operator_add_add har hN hx hy hz,
    fun x y z hx hy hz => operator_add_add har hN hx hy hz,
    fun h0 h1 => to_int32_of_range h0 h1, ?_,
    operator_add_zero har hN hidx, operator_add_zero har hN hidx, ?_⟩
  · intro h0 h1 h2 h3
    have hx := operator_add_of_range (k := a) har hN h0 h1
    have hxa : (Iterator.mk (some ar) ((it.file_index_ : Int) + a).toNat).archive_ = some ar := rfl
    have hxi : (((Iterator.mk (some ar) ((it.file_index_ : Int) + a).toNat).file_index_ : Nat)
        : Int) = it.file_index_ + a := by
      simp only
      omega
    have hy := operator_add_of_range (k := b) hxa hN (by rw [hxi]; exact h2) (by rw [hxi]; exact h3)
    have hu : to_uint32 ((it.file_index_ : Int) + to_int32 (a + b))
        = ((it.file_index_ : Int) + a + b).toNat := by
      rw [to_uint32_add_to_int32, ← Int.add_assoc]
      exact to_uint32_of_range h2 (by omega)
    refine ⟨_, _, hx, hy, ?_⟩
    rw [operator_add_eq _ har hN, hu, if_pos (by omega), hxi]
  · rw [iterator_eta har, operator_eq_same]
    simp

/-- C14. For every archive with `N = num_files()`, also when `N` is `2^31` or more so
that the conversion of the count to the signed `difference_type` wraps to `N - 2^32`:
`begin() + num_files()` is evaluated without a failed precondition and is `end()`, and the
two compare equal. -/
theorem begin_add_num_files (a : Archive) (N : Nat) (hN : a.num_files = .ok N) :
    ∃ first last, a.begin = .ok first ∧ a.end_ = .ok last ∧
      operator_add first (to_int32 N) = .ok last ∧
      operator_eq last last = .ok true ∧
      (2 ^ 31 ≤ N → to_int32 N = (N : Int) - 2 ^ 32) := by
  have hlt := num_files_lt hN
  refine ⟨⟨some a, 0⟩, ⟨some a, N⟩, begin_eq hN, end_eq hN, ?_, ?_, ?_⟩
  · have hu : to_uint32 (((0 : Nat) : Int) + to_int32 N) = N := by
      rw [to_uint32_add_to_int32]
      simp only [Int.Nat.cast_ofNat_Int, Int.zero_add]
      exact to_uint32_natCast hlt
    rw [operator_add_eq (a := a) _ rfl hN]
    simp only [hu, Nat.le_refl, if_true]
  · rw [operator_eq_same]
    simp
  · intro hbig
    unfold to_int32
    omega

/-- C15, counterexample.  In `maxCountArchive` the file count is `2^32 - 1`; `end()` is at
index 4294967295 and `begin()` at index 0, both in `[0, num_files()]`, and `end() - begin()`
is `-1`, not the difference 4294967295 of the two indices. -/
theorem end_minus_begin_wraps :
    maxCountArchive.ParsedFrom 0 (Memory.ofList maxCountBytes) 12 ∧
    maxCountArchive.num_files = .ok 4294967295 ∧
    maxCountArchive.end_ = .ok ⟨some maxCountArchive, 4294967295⟩ ∧
    maxCountArchive.begin = .ok ⟨some maxCountArchive, 0⟩ ∧
    operator_diff ⟨some maxCountArchive, 4294967295⟩ ⟨some maxCountArchive, 0⟩ = .ok (-1) ∧
    (-1 : Int) ≠ 4294967295 - 0 :=
  ⟨⟨by decide, rfl, rfl⟩, rfl, rfl, rfl, rfl, by decide⟩

/-- C15, amended.  For every two cursors `x` and `y` of the same archive with indices in
`[0, num_files()]` that are both below `2^31` or both at least `2^31` (both are below when
`num_files()` is below `2^31`), `x - y` is the signed integer `index_x - index_y`, the
true difference of the two indices: the conversions to `std::int32_t` and their
subtraction give it exactly, without overflow. -/
theorem iterator_difference (x y : Iterator) (a : Archive) (N : Nat)
    (hx : x.archive_ = some a) (hy : y.archive_ = some a) (hN : a.num_files = .ok N)
    (hxi : x.file_index_ ≤ N) (hyi : y.file_index_ ≤ N)
    (hside : (x.file_index_ < 2 ^ 31 ∧ y.file_index_ < 2 ^ 31) ∨
      (2 ^ 31 ≤ x.file_index_ ∧ 2 ^ 31 ≤ y.file_index_)) :
    operator_diff x y = .ok ((x.file_index_ : Int) - y.file_index_) ∧
    to_int32 x.file_index_ - to_int32 y.file_index_ = (x.file_index_ : Int) - y.file_index_ ∧
    (-2 ^ 31 ≤ (x.file_index_ : Int) - y.file_index_ ∧
      (x.file_index_ : Int) - y.file_index_ < 2 ^ 31) ∧
    (N < 2 ^ 31 → x.file_index_ < 2 ^ 31 ∧ y.file_index_ < 2 ^ 31) := by
  have hlt := num_files_lt hN
  have hexact : to_int32 (x.file_index_ : Int) - to_int32 (y.file_index_ : Int)
      = (x.file_index_ : Int) - y.file_index_ := by
    unfold to_int32
    omega
  have hrange : -2 ^ 31 ≤ (x.file_index_ : Int) - y.file_index_ ∧
      (x.file_index_ : Int) - y.file_index_ < 2 ^ 31 := by
    omega
  refine ⟨?_, hexact, hrange, fun hsmall => ⟨by omega, by omega⟩⟩
  simp only [operator_diff, hx, hy, hexact]
  exact int32_arith_of_range hrange.1 hrange.2

theorem operator_eq_eq {x y : Iterator} {a b : Archive}
    (hx : x.archive_ = some a) (hy : y.archive_ = some b) (hab : a.self = b.self) :
    operator_eq x y = .ok (decide (x.file_index_ = y.file_index_)) := by
  simp [operator_eq, hx, hy, hab, pure, Except.pure]

theorem operator_lt_eq {x y : Iterator} {a b : Archive}
    (hx : x.archive_ = some a) (hy : y.archive_ = some b) (hab : a.self = b.self) :
    operator_lt x y = .ok (decide (x.file_index_ < y.file_index_)) := by
  simp [operator_lt, hx, hy, hab, pure, Except.pure]

theorem operator_le_eq {x y : Iterator} {a b : Archive}
    (hx : x.archive_ = some a) (hy : y.archive_ = some b) (hab : a.self = b.self) :
    operator_le x y = .ok (decide (x.file_index_ ≤ y.file_index_)) := by
  simp only [operator_le, operator_lt_eq hx hy hab, operator_eq_eq hx hy hab, bind, Except.bind,
    pure, Except.pure]
  by_cases hlt : x.file_index_ < y.file_index_
  · have hle : x.file_index_ ≤ y.file_index_ := by omega
    simp [hlt, hle]
  · by_cases heq : x.file_index_ = y.file_index_
    · simp [heq]
    · have hle : ¬ x.file_index_ ≤ y.file_index_ := by omega
      simp [hlt, heq, hle]

theorem operator_gt_eq {x y : Iterator} {a b : Archive}
    (hx : x.archive_ = some a) (hy : y.archive_ = some b) (hab : a.self = b.self) :
    operator_gt x y = .ok (decide (x.file_index_ > y.file_index_)) := by
  simp only [operator_gt, operator_le_eq hx hy hab, bind, Except.bind, pure, Except.pure]
  by_cases hle : x.file_index_ ≤ y.file_index_
  · have hgt : ¬ x.file_index_ > y.file_index_ := by omega
    simp [hle, hgt]
  · have hgt : x.file_index_ > y.file_index_ := by omega
    simp [hle, hgt]

theorem operator_ge_eq {x y : Iterator} {a b : Archive}
    (hx : x.archive_ = some a) (hy : y.archive_ = some b) (hab : a.self = b.self) :
    operator_ge x y = .ok (decide (x.file_index_ ≥ y.file_index_)) := by
  simp only [operator_ge, operator_gt_eq hx hy hab, operator_eq_eq hx hy hab, bind, Except.bind,
    pure, Except.pure]
  by_cases hgt : x.file_index_ > y.file_index_
  · have hge : x.file_index_ ≥ y.file_index_ := by omega
    simp [hgt, hge]
  · by_cases heq : x.file_index_ = y.file_index_
    · simp [heq]
    · have hge : ¬ x.file_index_ ≥ y.file_index_ := by omega
      simp [hgt, heq, hge]

theorem operator_ne_eq {x y : Iterator} {a b : Archive}
    (hx : x.archive_ = some a) (hy : y.archive_ = some b) (hab : a.self = b.self) :
    operator_ne x y = .ok (decide (x.file_index_ ≠ y.file_index_)) := by
  simp [operator_ne, operator_eq_eq hx hy hab, bind, Except.bind, pure, Except.pure]

/-- C16. For every two cursors `x` and `y` of the same archive the six comparison
operators return, without a failed precondition, the comparison of the two unsigned
indices: `==` equality, `!=` inequality, `<`, `<=`, `>`, `>=` the order; exactly one of
`x < y`, `x == y`, `x > y` is true; and for an archive with at least one file
`begin() < end()`, `begin() != end()` and `end() <= begin()` is false. -/
theorem iterator_comparisons (x y : Iterator) (a b : Archive)
    (hx : x.archive_ = some a) (hy : y.archive_ = some b) (hab : a.self = b.self) :
    operator_eq x y = .ok (decide (x.file_index_ = y.file_index_)) ∧
    operator_ne x y = .ok (decide (x.file_index_ ≠ y.file_index_)) ∧
    operator_lt x y = .ok (decide (x.file_index_ < y.file_index_)) ∧
    operator_le x y = .ok (decide (x.file_index_ ≤ y.file_index_)) ∧
    operator_gt x y = .ok (decide (x.file_index_ > y.file_index_)) ∧
    operator_ge x y = .ok (decide (x.file_index_ ≥ y.file_index_)) ∧
    ((operator_lt x y = .ok true ∧ operator_eq x y = .ok false ∧ operator_gt x y = .ok false) ∨
      (operator_lt x y = .ok false ∧ operator_eq x y = .ok true ∧ operator_gt x y = .ok false) ∨
      (operator_lt x y = .ok false ∧ operator_eq x y = .ok false ∧ operator_gt x y = .ok true)) ∧
    (∀ N, a.num_files = .ok N → 0 < N →
      ∃ first last, a.begin = .ok first ∧ a.end_ = .ok last ∧
        operator_lt first last = .ok true ∧ operator_ne first last = .ok true ∧
        operator_le last first = .ok false) := by
  refine ⟨operator_eq_eq hx hy hab, operator_ne_eq hx hy hab, operator_lt_eq hx hy hab,
    operator_le_eq hx hy hab, operator_gt_eq hx hy hab, operator_ge_eq hx hy hab, ?_, ?_⟩
  · rw [operator_eq_eq hx hy hab, operator_lt_eq hx hy hab, operator_gt_eq hx hy hab]
    rcases Nat.lt_trichotomy x.file_index_ y.file_index_ with h | h | h
    · left
      have h1 : x.file_index_ ≠ y.file_index_ := by omega
      have h2 : ¬ x.file_index_ > y.file_index_ := by omega
      simp [h, h1, h2]
    · right; left
      simp [h]
    · right; right
      have h1 : x.file_index_ ≠ y.file_index_ := by omega
      have h2 : ¬ x.file_index_ < y.file_index_ := by omega
      simp [h, h1, h2]
  · intro N hN hpos
    refine ⟨⟨some a, 0⟩, ⟨some a, N⟩, begin_eq hN, end_eq hN, ?_, ?_, ?_⟩
    · rw [operator_lt_eq (a := a) (b := a) rfl rfl rfl]
      simp [hpos]
    · rw [operator_ne_eq (a := a) (b := a) rfl rfl rfl]
      simp only [ne_eq, Except.ok.injEq, decide_eq_true_eq]
      omega
    · rw [operator_le_eq (a := a) (b := a) rfl rfl rfl]
      simp only [Except.ok.injEq, decide_eq_false_iff_not]
      omega

theorem add_like_inv {it r : Iterator} {a : Archive} {N : Nat} {i : Nat}
    (ha : it.archive_ = some a)
    (h : (if i ≤ N then (Except.ok ⟨it.archive_, i⟩ : Except Fault Iterator)
      else .error .AssertionFailed) = .ok r) :
    r.Inv a N := by
  split at h
  · rename_i hle
    simp only [Except.ok.injEq] at h
    subst h
    exact ⟨ha, hle⟩
  · simp at h

theorem operator_add_inv {it r : Iterator} {a : Archive} {N : Nat} {k : Int}
    (ha : it.archive_ = some a) (hN : a.num_files = .ok N)
    (h : operator_add it k = .ok r) : r.Inv a N := by
  obtain ⟨e, hle⟩ := operator_add_ok_inv ha hN h
  subst e
  exact ⟨rfl, hle⟩

theorem operator_pre_inc_eq {it : Iterator} {a : Archive} {N : Nat}
    (ha : it.archive_ = some a) (hN : a.num_files = .ok N) (hi : it.file_index_ < N) :
    it.operator_pre_inc = .ok ⟨some a, it.file_index_ + 1⟩ := by
  have hlt := num_files_lt hN
  have hmod : (it.file_index_ + 1) % 2 ^ 32 = it.file_index_ + 1 := Nat.mod_eq_of_lt (by omega)
  simp only [Iterator.operator_pre_inc, ha, hN, hi, bind, Except.bind, pure, Except.pure,
    if_true, hmod]

theorem operator_post_inc_eq {it : Iterator} {a : Archive} {N : Nat}
    (ha : it.archive_ = some a) (hN : a.num_files = .ok N) (hi : it.file_index_ < N) :
    it.operator_post_inc = .ok (⟨some a, it.file_index_ + 1⟩, ⟨some a, it.file_index_⟩) := by
  have hlt := num_files_lt hN
  have hmod : (it.file_index_ + 1) % 2 ^ 32 = it.file_index_ + 1 := Nat.mod_eq_of_lt (by omega)
  have hu : to_uint32 (((it.file_index_ + 1 : Nat) : Int) - 1) = it.file_index_ := by
    unfold to_uint32
    omega
  simp only [Iterator.operator_post_inc, ha, hN, hi, bind, Except.bind, pure, Except.pure,
    if_true, hmod, hu, iterator_ctor_of_le hN (Nat.le_of_lt hi)]

theorem operator_pre_dec_eq {it : Iterator} {a : Archive} {N : Nat}
    (ha : it.archive_ = some a) (hN : a.num_files = .ok N) (hidx : it.file_index_ ≤ N)
    (hi : 0 < it.file_index_) :
    it.operator_pre_dec = .ok ⟨some a, it.file_index_ - 1⟩ := by
  have hlt := num_files_lt hN
  have hu : to_uint32 ((it.file_index_ : Int) - 1) = it.file_index_ - 1 := by
    unfold to_uint32
    omega
  simp only [Iterator.operator_pre_dec, ha, hi, pure, Except.pure, if_true, hu]

theorem operator_post_dec_eq {it : Iterator} {a : Archive} {N : Nat}
    (ha : it.archive_ = some a) (hN : a.num_files = .ok N) (hidx : it.file_index_ ≤ N)
    (hi : 0 < it.file_index_) :
    it.operator_post_dec = .ok (⟨some a, it.file_index_ - 1⟩, ⟨some a, it.file_index_⟩) := by
  have hlt := num_files_lt hN
  have hu : to_uint32 ((it.file_index_ : Int) - 1) = it.file_index_ - 1 := by
    unfold to_uint32
    omega
  have hmod : (it.file_index_ - 1 + 1) % 2 ^ 32 = it.file_index_ := by
    rw [Nat.mod_eq_of_lt (by omega)]
    omega
  simp only [Iterator.operator_post_dec, ha, hi, bind, Except.bind, pure, Except.pure,
    if_true, hu, hmod, iterator_ctor_of_le hN hidx]

/-- C17. The cursor index invariant.  `begin()` and `end()` are cursors of the archive
with index in `[0, num_files()]`, and for every cursor `it` of the archive with index in
`[0, num_files()]`, every operation that completes without a failed assertion leaves and
returns only such cursors: the constructor from (archive, index), pre- and post-increment,
pre- and post-decrement, `+=`, `-=`, `it + k`, `k + it` and `it - k`.  The increments
do complete when the index is below `num_files()` and the decrements when it is above 0. -/
theorem iterator_index_invariant (it : Iterator) (a : Archive) (N : Nat)
    (hN : a.num_files = .ok N) (hinv : it.Inv a N) :
    (∃ first last, a.begin = .ok first ∧ a.end_ = .ok last ∧ first.Inv a N ∧ last.Inv a N) ∧
    (∀ i r, Iterator.ctor (some a) i = .ok r → r.Inv a N) ∧
    (∀ r, it.operator_pre_inc = .ok r → r.Inv a N) ∧
    (∀ s r, it.operator_post_inc = .ok (s, r) → s.Inv a N ∧ r.Inv a N) ∧
    (∀ r, it.operator_pre_dec = .ok r → r.Inv a N) ∧
    (∀ s r, it.operator_post_dec = .ok (s, r) → s.Inv a N ∧ r.Inv a N) ∧
    (∀ k r, it.operator_add_assign k = .ok r → r.Inv a N) ∧
    (∀ k r, it.operator_sub_assign k = .ok r → r.Inv a N) ∧
    (∀ k r, operator_add it k = .ok r → r.Inv a N) ∧
    (∀ k r, operator_add_left k it = .ok r → r.Inv a N) ∧
    (∀ k r, operator_sub it k = .ok r → r.Inv a N) ∧
    (it.file_index_ < N →
      (∃ r, it.operator_pre_inc = .ok r) ∧ (∃ s r, it.operator_post_inc = .ok (s, r))) ∧
    (0 < it.file_index_ →
      (∃ r, it.operator_pre_dec = .ok r) ∧ (∃ s r, it.operator_post_dec = .ok (s, r))) := by
  obtain ⟨ha, hidx⟩ := hinv
  have hlt := num_files_lt hN
  refine ⟨⟨⟨some a, 0⟩, ⟨some a, N⟩, begin_eq hN, end_eq hN, ⟨rfl, Nat.zero_le N⟩,
    ⟨rfl, Nat.le_refl N⟩⟩, ?_, ?_, ?_, ?_, ?_, ?_, ?_, ?_, ?_, ?_,
    fun hi => ⟨⟨_, operator_pre_inc_eq ha hN hi⟩, ⟨_, _, operator_post_inc_eq ha hN hi⟩⟩,
    fun hi => ⟨⟨_, operator_pre_dec_eq ha hN hidx hi⟩,
      ⟨_, _, operator_post_dec_eq ha hN hidx hi⟩⟩⟩
  · intro i r h
    obtain ⟨e, hle⟩ := iterator_ctor_ok_inv hN h
    subst e
    exact ⟨rfl, hle⟩
  · intro r h
    simp only [Iterator.operator_pre_inc, ha, hN, bind, Except.bind, pure, Except.pure] at h
    split at h
    · rename_i hi
      simp only [Except.ok.injEq] at h
      subst h
      refine ⟨rfl, ?_⟩
      simp only
      rw [Nat.mod_eq_of_lt (by omega)]
      omega
    · simp at h
  · intro s r h
    simp only [Iterator.operator_post_inc, ha, hN, bind, Except.bind, pure, Except.pure] at h
    split at h
    · rename_i hi
      have hmod : (it.file_index_ + 1) % 2 ^ 32 = it.file_index_ + 1 :=
        Nat.mod_eq_of_lt (by omega)
      have hu : to_uint32 ((((it.file_index_ + 1) % 2 ^ 32 : Nat) : Int) - 1)
          = it.file_index_ := by
        rw [hmod]
        unfold to_uint32
        omega
      rw [hu, iterator_ctor_of_le hN hidx] at h
      simp only [Except.ok.injEq, Prod.mk.injEq] at h
      obtain ⟨hs, hr⟩ := h
      subst hs
      subst hr
      exact ⟨⟨rfl, by simp only; omega⟩, ⟨rfl, hidx⟩⟩
    · simp at h
  · intro r h
    simp only [Iterator.operator_pre_dec, ha, pure, Except.pure] at h
    split at h
    · rename_i hi
      simp only [Except.ok.injEq] at h
      subst h
      refine ⟨rfl, ?_⟩
      simp only [to_uint32]
      omega
    · simp at h
  · intro s r h
    simp only [Iterator.operator_post_dec, ha, bind, Except.bind, pure, Except.pure] at h
    split at h
    · rename_i hi
      have hu : to_uint32 ((it.file_index_ : Int) - 1) = it.file_index_ - 1 := by
        unfold to_uint32
        omega
      have hmod : (it.file_index_ - 1 + 1) % 2 ^ 32 = it.file_index_ := by
        rw [Nat.mod_eq_of_lt (by omega)]
        omega
      rw [hu, hmod, iterator_ctor_of_le hN hidx] at h
      simp only [Except.ok.injEq, Prod.mk.injEq] at h
      obtain ⟨hs, hr⟩ := h
      subst hs
      subst hr
      exact ⟨⟨rfl, by simp only; omega⟩, ⟨rfl, hidx⟩⟩
    · simp at h
  · intro k r h
    simp only [Iterator.operator_add_assign, ha, hN, bind, Except.bind, pure, Except.pure] at h
    rw [← ha] at h
    exact add_like_inv ha h
  · intro k r h
    simp only [Iterator.operator_sub_assign, ha, hN, bind, Except.bind, pure, Except.pure] at h
    rw [← ha] at h
    exact add_like_inv ha h
  · intro k r h
    exact operator_add_inv ha hN h
  · intro k r h
    exact operator_add_inv ha hN h
  · intro k r h
    unfold operator_sub at h
    cases hneg : int32_arith (-k) with
    | error e => simp [hneg, bind, Except.bind] at h
    | ok negated =>
      simp only [hneg, bind, Except.bind] at h
      exact operator_add_inv ha hN h

/-- C18. The archive `fooArchive` has one file and `begin()` is its cursor at index 0.
The index-offset dereference `begin()[1]`, whose target is the one-past-end index 1,
passes its assertion and returns the invalid accessor of `get_file(1)`, while `begin() + 1`
is the cursor at index 1 and dereferencing it with `*` fails the assertion. -/
theorem operator_index_accepts_end :
    fooArchive.ParsedFrom 0 (Memory.ofList fooBytes) 35 ∧
    fooArchive.num_files = .ok 1 ∧
    fooArchive.begin = .ok ⟨some fooArchive, 0⟩ ∧
    Iterator.operator_index ⟨some fooArchive, 0⟩ 1 = .ok FileAccessor.null ∧
    FileAccessor.null.is_valid = false ∧
    operator_add ⟨some fooArchive, 0⟩ 1 = .ok ⟨some fooArchive, 1⟩ ∧
    Iterator.operator_star ⟨some fooArchive, 1⟩ = .error .AssertionFailed :=
  ⟨⟨by decide, rfl, rfl⟩, rfl, rfl, rfl, rfl, rfl, rfl⟩

theorem get_file_data_size_irrelevant (a : Archive) (data_size i : Nat) :
    Archive.get_file ⟨a.self, a.parsing_result_, a.data_, data_size⟩ i = a.get_file i := by
  simp only [Archive.get_file, Archive.num_files]

/-- C19. Header validation does not bound the offset table by the buffer length.  For
the 12-byte buffer `sarc`, version 1, count 1 the constructor yields Succeeded and
`num_files()` is 1, although `12 + 4*num_files() <= data_size` fails and the table entry
of file 0 starts at offset 12, at `data_size`; `get_file(0)` performs that read all the
same, outside the buffer.  The result of `get_file` never depends on `data_size`: for the
35-byte buffer `fooBytes` passed with `data_size` 12 the constructor succeeds and
`get_file(0)` answers from the bytes beyond offset 12. -/
theorem header_does_not_bound_table :
    headerOnlyArchive.ParsedFrom 0 (Memory.ofList headerOnlyBytes) 12 ∧
    headerOnlyArchive.num_files = .ok 1 ∧
    headerOnlyArchive.data_size_ = 12 ∧
    ¬ (12 + 4 * 1 ≤ headerOnlyArchive.data_size_) ∧
    headerOnlyArchive.data_size_ ≤ offset_offset 0 ∧
    headerOnlyArchive.get_file 0 = .error .OutOfBounds ∧
    (∀ (a : Archive) (data_size i : Nat),
      Archive.get_file ⟨a.self, a.parsing_result_, a.data_, data_size⟩ i = a.get_file i) ∧
    Archive.ctor 0 (some (Memory.ofList fooBytes)) 12
      = .ok ⟨0, .Succeeded, some (Memory.ofList fooBytes), 12⟩ ∧
    Archive.get_file ⟨0, .Succeeded, some (Memory.ofList fooBytes), 12⟩ 0
      = .ok ⟨some 32, some 28, 3⟩ :=
  ⟨⟨by decide, rfl, rfl⟩, rfl, rfl, by decide, by decide, rfl,
    get_file_data_size_irrelevant, rfl, rfl⟩

theorem strcmp_loop_error {d : Memory} {e : Fault} :
    ∀ (cs : List Byte) (p : Nat), strcmp_loop d p cs = .error e → e = .OutOfBounds := by
  intro cs
  induction cs with
  | nil =>
    intro p h
    cases hd : d p with
    | none =>
      simp only [strcmp_loop, load_eq_error hd, bind, Except.bind, Except.error.injEq] at h
      exact h.symm
    | some c => simp [strcmp_loop, load_eq_ok hd, bind, Except.bind, pure, Except.pure] at h
  | cons q qs ih =>
    intro p h
    cases hd : d p with
    | none =>
      simp only [strcmp_loop, load_eq_error hd, bind, Except.bind, Except.error.injEq] at h
      exact h.symm
    | some c =>
      simp only [strcmp_loop, load_eq_ok hd, bind, Except.bind, pure, Except.pure] at h
      split at h
      · simp at h
      · split at h
        · simp at h
        · exact ih (p + 1) h

theorem strcmp_is_zero_error {d : Memory} {s1 : Option Nat} {s2 : CString} {e : Fault}
    (h : strcmp_is_zero d s1 s2 = .error e) : e ≠ .AssertionFailed := by
  unfold strcmp_is_zero at h
  split at h
  · rw [strcmp_loop_error _ _ h]
    decide
  · simp only [Except.error.injEq] at h
    rw [← h]
    decide

theorem find_file_loop_no_assert {a : Archive} {d : Memory} {N : Nat} {name : CString}
    (hs : a.parsing_result_ = .Succeeded) (hd : a.data_ = some d)
    (hN : a.num_files = .ok N) :
    ∀ left i, i + left = N → a.find_file_loop d name i left ≠ .error .AssertionFailed := by
  intro left
  induction left with
  | zero =>
    intro i _ h
    simp [Archive.find_file_loop, pure, Except.pure] at h
  | succ left ih =>
    intro i hsum h
    have hi : i < N := by omega
    cases hg : a.get_file i with
    | error e =>
      have he := (get_file_error hs hd hN hg).1
      simp only [Archive.find_file_loop, hg, bind, Except.bind, Except.error.injEq] at h
      rw [he] at h
      exact absurd h (by decide)
    | ok f =>
      have hv := get_file_valid_of_ok hs hd hN hi hg
      cases hc : strcmp_is_zero d f.file_name name with
      | error e =>
        simp only [Archive.find_file_loop, hg, hv, hc, bind, Except.bind, Bool.not_true,
          Bool.false_eq_true, if_false, Except.error.injEq] at h
        exact strcmp_is_zero_error hc h
      | ok same =>
        simp only [Archive.find_file_loop, hg, hv, hc, bind, Except.bind, pure, Except.pure,
          Bool.not_true, Bool.false_eq_true, if_false] at h
        cases same with
        | true => simp at h
        | false =>
          simp only [Bool.false_eq_true, if_false] at h
          exact ih (i + 1) (by omega) h

theorem ctor_ok_data {self : Nat} {data : Option Memory} {data_size : Nat} {a : Archive}
    (h : Archive.ctor self data data_size = .ok a) (hs : a.parsing_result_ = .Succeeded) :
    ∃ d, a.data_ = some d := by
  cases data with
  | none =>
    simp only [Archive.ctor, pure, Except.pure, Except.ok.injEq] at h
    subst h
    simp at hs
  | some d => exact ⟨d, (ctor_some_ok_inv h).2.1⟩

theorem no_null_data_assertion {self : Nat} {data : Option Memory} {data_size : Nat}
    {a : Archive} (h : Archive.ctor self data data_size = .ok a) :
    a.num_files ≠ .error .AssertionFailed ∧
    (∀ i, a.get_file i ≠ .error .AssertionFailed) ∧
    (∀ name, a.find_file name ≠ .error .AssertionFailed) := by
  by_cases hs : a.parsing_result_ = .Succeeded
  · obtain ⟨d, hd⟩ := ctor_ok_data h hs
    have hnum := num_files_of_succeeded hs hd
    cases hr : read_uint32 d 8 with
    | error e =>
      have he := read_uint32_error hr
      subst he
      refine ⟨?_, ?_, ?_⟩
      · rw [hnum, hr]
        simp
      · intro i
        simp [Archive.get_file, hs, hd, hnum, hr, bind, Except.bind]
      · intro name
        simp [Archive.find_file, hs, hd, hnum, hr, bind, Except.bind]
    | ok N =>
      have hN : a.num_files = .ok N := by rw [hnum, hr]
      refine ⟨?_, ?_, ?_⟩
      · rw [hN]
        simp
      · intro i hg
        have := (get_file_error hs hd hN hg).1
        exact absurd this (by decide)
      · intro name
        rw [find_file_of_succeeded hs hd hN]
        exact find_file_loop_no_assert hs hd hN N 0 (by omega)
  · refine ⟨?_, ?_, ?_⟩
    · rw [num_files_of_failed hs]
      simp
    · intro i
      rw [get_file_of_failed hs]
      simp
    · intro name
      rw [find_file_of_failed hs]
      simp

theorem restrict_holds {d : Memory} {n m : Nat} (h : d.Holds n) (hm : m ≤ n) :
    (d.restrict m).Holds m := by
  intro k hk
  simp only [Memory.restrict, hk, if_true]
  exact h k (by omega)

theorem big_endian32_at_restrict {d : Memory} {n p : Nat} (hp : p + 4 ≤ n) :
    big_endian32_at (d.restrict n) p = big_endian32_at d p := by
  apply big_endian32_at_congr
  intro k _ hk
  simp only [Memory.restrict]
  rw [if_pos (by omega)]

theorem has_magic_restrict {d : Memory} {n : Nat} (hn : 4 ≤ n) :
    has_magic (d.restrict n) ↔ has_magic d := by
  simp only [has_magic, Memory.restrict]
  rw [if_pos (by omega), if_pos (by omega), if_pos (by omega), if_pos (by omega)]

theorem ctor_of_readable {d : Memory} (self data_size : Nat) (hsz : 12 ≤ data_size)
    (hr : d.Readable 0 8) :
    Archive.ctor self (some d) data_size
      = .ok ⟨self, parse_result_spec (some d) data_size, some d, data_size⟩ := by
  have hnot : ¬ data_size < 12 := by omega
  have hm := magic_number_differs_eq d (fun k hk => hr k (by omega))
  obtain ⟨v, hv⟩ := readable_big_endian32_at (d := d) (p := 4)
    (fun k hk => by have := hr (4 + k) (by omega); rwa [Nat.zero_add] at this)
  have hread := (read_uint32_ok_iff d 4 v).2 hv
  by_cases hmag : has_magic d
  · by_cases hver : v = 1
    · simp [Archive.ctor, MINIMUM_ARCHIVE_SIZE, parse_result_spec, hnot, hm, hread, hmag, hv,
        hver, bind, Except.bind, pure, Except.pure]
    · simp [Archive.ctor, MINIMUM_ARCHIVE_SIZE, parse_result_spec, hnot, hm, hread, hmag, hv,
        hver, bind, Except.bind, pure, Except.pure]
  · simp [Archive.ctor, MINIMUM_ARCHIVE_SIZE, parse_result_spec, hnot, hm, hmag, bind,
      Except.bind, pure, Except.pure]

theorem ctor_of_short (self : Nat) (d : Memory) {data_size : Nat} (hsz : data_size < 12) :
    Archive.ctor self (some d) data_size = .ok ⟨self, .TooFewDataSize, some d, data_size⟩ := by
  simp [Archive.ctor, MINIMUM_ARCHIVE_SIZE, hsz, pure, Except.pure]

theorem num_files_mk_of_readable {d : Memory} (self data_size : Nat) (r : ParsingResult)
    (hr : d.Readable 8 4) :
    ∃ n, Archive.num_files ⟨self, r, some d, data_size⟩ = .ok n := by
  by_cases hs : r = .Succeeded
  · obtain ⟨n, hn⟩ := readable_read_uint32 hr
    exact ⟨n, by rw [num_files_of_succeeded (d := d) hs rfl, hn]⟩
  · exact ⟨0, num_files_of_failed hs⟩

theorem parse_result_spec_restrict (d : Memory) (data_size : Nat) :
    parse_result_spec (some (d.restrict 12)) data_size = parse_result_spec (some d) data_size := by
  simp only [parse_result_spec, has_magic_restrict (d := d) (n := 12) (by omega),
    big_endian32_at_restrict (d := d) (n := 12) (p := 4) (by omega)]

theorem num_files_mk_restrict (d : Memory) (self data_size : Nat) (r : ParsingResult) :
    Archive.num_files ⟨self, r, some (d.restrict 12), data_size⟩
      = Archive.num_files ⟨self, r, some d, data_size⟩ := by
  simp only [Archive.num_files, read_uint32_eq,
    big_endian32_at_restrict (d := d) (n := 12) (p := 8) (by omega)]

/-- C20. Header reads are in bounds.  For every present buffer that holds `data_size`
bytes, the constructor and `num_files()` return without an out-of-bounds read, and when
`data_size >= 12` they return the same parse result and count on the buffer cut down to its
first 12 bytes, which holds nothing from offset 12 on: only offsets 0..11 are read.  For
every buffer, even one that holds no byte, a `data_size` below 12 gives TooFewDataSize and
count 0, and an absent buffer gives NullData and count 0: no byte is read.  For every
archive the constructor returns, the assertion `data_ != nullptr` of `num_files()`,
`get_file()` and `find_file()` does not fail. -/
theorem header_reads_in_bounds (self : Nat) (d : Memory) (data_size : Nat)
    (hbuf : d.Holds data_size) :
    (∃ a n, Archive.ctor self (some d) data_size = .ok a ∧ a.num_files = .ok n) ∧
    (12 ≤ data_size →
      ∃ a r n, Archive.ctor self (some d) data_size = .ok a ∧
        Archive.ctor self (some (d.restrict 12)) data_size = .ok r ∧
        r.parsing_result = a.parsing_result ∧
        a.num_files = .ok n ∧ r.num_files = .ok n) ∧
    (∀ (m : Memory) (n : Nat), n < 12 →
      Archive.ctor self (some m) n = .ok ⟨self, .TooFewDataSize, some m, n⟩ ∧
      Archive.num_files ⟨self, .TooFewDataSize, some m, n⟩ = .ok 0) ∧
    (∀ n : Nat, n < 12 →
      Archive.ctor self (some Memory.empty) n
        = .ok ⟨self, .TooFewDataSize, some Memory.empty, n⟩) ∧
    (∀ n : Nat,
      Archive.ctor self none n = .ok ⟨self, .NullData, none, n⟩ ∧
      Archive.num_files ⟨self, .NullData, none, n⟩ = .ok 0) ∧
    (∀ (data : Option Memory) (n : Nat) (a : Archive),
      Archive.ctor self data n = .ok a →
        a.num_files ≠ .error .AssertionFailed ∧
        (∀ i, a.get_file i ≠ .error .AssertionFailed) ∧
        (∀ name, a.find_file name ≠ .error .AssertionFailed)) := by
  have hlong : 12 ≤ data_size →
      ∃ a r n, Archive.ctor self (some d) data_size = .ok a ∧
        Archive.ctor self (some (d.restrict 12)) data_size = .ok r ∧
        r.parsing_result = a.parsing_result ∧
        a.num_files = .ok n ∧ r.num_files = .ok n := by
    intro hsz
    have hr8 : d.Readable 0 8 := holds_readable hbuf (by omega)
    have hrr : (d.restrict 12).Readable 0 8 :=
      holds_readable (restrict_holds hbuf hsz) (by omega)
    obtain ⟨n, hn⟩ := num_files_mk_of_readable (d := d) self data_size
      (parse_result_spec (some d) data_size) (holds_readable hbuf (by omega))
    refine ⟨_, _, n, ctor_of_readable self data_size hsz hr8,
      ctor_of_readable self data_size hsz hrr, ?_, hn, ?_⟩
    · exact parse_result_spec_restrict d data_size
    · rw [parse_result_spec_restrict, num_files_mk_restrict]
      exact hn
  refine ⟨?_, hlong, ?_, ?_, ?_, ?_⟩
  · by_cases hsz : data_size < 12
    · exact ⟨_, 0, ctor_of_short self d hsz, num_files_of_failed (by simp)⟩
    · obtain ⟨a, _, n, ha, _, _, hn, _⟩ := hlong (by omega)
      exact ⟨a, n, ha, hn⟩
  · intro m n hn
    exact ⟨ctor_of_short self m hn, num_files_of_failed (by simp)⟩
  · intro n hn
    exact ctor_of_short self Memory.empty hn
  · intro n
    exact ⟨rfl, num_files_of_failed (by simp)⟩
  · intro data n a h
    exact no_null_data_assertion h

/-- The theorem `add_then_diff` applied to the cursor of `maxCountArchive` at index
`2^31 - 1` and the offset -1, with its hypotheses discharged. -/
theorem add_then_diff_witness :
    midCursor.archive_ = some maxCountArchive ∧
    maxCountArchive.num_files = .ok 4294967295 ∧
    (-2 ^ 31 ≤ (-1 : Int)) ∧ ((-1 : Int) < 2 ^ 31) ∧
    (0 ≤ (midCursor.file_index_ : Int) + -1) ∧
    ((midCursor.file_index_ : Int) + -1 ≤ (4294967295 : Nat)) ∧
    (((midCursor.file_index_ : Int) < 2 ^ 31 ∧ (midCursor.file_index_ : Int) + -1 < 2 ^ 31) ∨
      (2 ^ 31 ≤ (midCursor.file_index_ : Int) ∧ 2 ^ 31 ≤ (midCursor.file_index_ : Int) + -1)) ∧
    ∃ moved, operator_add midCursor (-1) = .ok moved ∧
      moved.archive_ = some maxCountArchive ∧
      (moved.file_index_ : Int) = midCursor.file_index_ + -1 ∧
      operator_diff moved midCursor = .ok (-1) ∧
      to_int32 moved.file_index_ - to_int32 midCursor.file_index_ = -1 :=
  ⟨rfl, rfl, by decide, by decide, by decide, by decide, Or.inl ⟨by decide, by decide⟩,
    add_then_diff midCursor maxCountArchive 4294967295 (-1) rfl rfl
      (by decide) (by decide) (by decide) (by decide) (Or.inl ⟨by decide, by decide⟩)⟩

/-- The theorem `add_add_and_add_zero` applied to `begin()` of `fooArchive` and the
offsets 1 and -1, with its hypotheses discharged. -/
theorem add_add_and_add_zero_witness :
    fooBegin.archive_ = some fooArchive ∧ fooArchive.num_files = .ok 1 ∧
    fooBegin.file_index_ ≤ 1 ∧
    ((∀ x y z, operator_add fooBegin 1 = .ok x → operator_add x (-1) = .ok y →
      operator_add fooBegin (to_int32 (1 + -1)) = .ok z → y = z ∧ operator_eq y z = .ok true) ∧
    (∀ x y z, operator_add_left 1 fooBegin = .ok x → operator_add_left (-1) x = .ok y →
      operator_add_left (to_int32 (1 + -1)) fooBegin = .ok z →
      y = z ∧ operator_eq y z = .ok true) ∧
    (-2 ^ 31 ≤ (1 : Int) + -1 → (1 : Int) + -1 < 2 ^ 31 → to_int32 (1 + -1) = 1 + -1) ∧
    (0 ≤ (fooBegin.file_index_ : Int) + 1 → (fooBegin.file_index_ : Int) + 1 ≤ (1 : Nat) →
      0 ≤ (fooBegin.file_index_ : Int) + 1 + -1 →
      (fooBegin.file_index_ : Int) + 1 + -1 ≤ (1 : Nat) →
      ∃ x y, operator_add fooBegin 1 = .ok x ∧ operator_add x (-1) = .ok y ∧
        operator_add fooBegin (to_int32 (1 + -1)) = .ok y) ∧
    operator_add fooBegin 0 = .ok fooBegin ∧ operator_add_left 0 fooBegin = .ok fooBegin ∧
    operator_eq fooBegin fooBegin = .ok true) :=
  ⟨rfl, rfl, by decide,
    add_add_and_add_zero fooBegin fooArchive 1 1 (-1) rfl rfl (by decide)⟩

/-- The theorem `begin_add_num_files` applied to `maxCountArchive`, whose file count
`2^32 - 1` does not fit the signed `difference_type`. -/
theorem begin_add_num_files_witness :
    maxCountArchive.num_files = .ok 4294967295 ∧
    ∃ first last, maxCountArchive.begin = .ok first ∧ maxCountArchive.end_ = .ok last ∧
      operator_add first (to_int32 (4294967295 : Nat)) = .ok last ∧
      operator_eq last last = .ok true ∧
      (2 ^ 31 ≤ 4294967295 → to_int32 (4294967295 : Nat) = ((4294967295 : Nat) : Int) - 2 ^ 32) :=
  ⟨rfl, begin_add_num_files maxCountArchive 4294967295 rfl⟩

/-- The theorem `iterator_difference` applied to `end()` and `begin()` of `fooArchive`. -/
theorem iterator_difference_witness :
    fooEnd.archive_ = some fooArchive ∧ fooBegin.archive_ = some fooArchive ∧
    fooArchive.num_files = .ok 1 ∧ fooEnd.file_index_ ≤ 1 ∧ fooBegin.file_index_ ≤ 1 ∧
    ((fooEnd.file_index_ < 2 ^ 31 ∧ fooBegin.file_index_ < 2 ^ 31) ∨
      (2 ^ 31 ≤ fooEnd.file_index_ ∧ 2 ^ 31 ≤ fooBegin.file_index_)) ∧
    (operator_diff fooEnd fooBegin = .ok ((fooEnd.file_index_ : Int) - fooBegin.file_index_) ∧
    to_int32 fooEnd.file_index_ - to_int32 fooBegin.file_index_
      = (fooEnd.file_index_ : Int) - fooBegin.file_index_ ∧
    (-2 ^ 31 ≤ (fooEnd.file_index_ : Int) - fooBegin.file_index_ ∧
      (fooEnd.file_index_ : Int) - fooBegin.file_index_ < 2 ^ 31) ∧
    (1 < 2 ^ 31 → fooEnd.file_index_ < 2 ^ 31 ∧ fooBegin.file_index_ < 2 ^ 31)) :=
  ⟨rfl, rfl, rfl, by decide, by decide, Or.inl ⟨by decide, by decide⟩,
    iterator_difference fooEnd fooBegin fooArchive 1 rfl rfl rfl (by decide) (by decide)
      (Or.inl ⟨by decide, by decide⟩)⟩

/-- The theorem `iterator_comparisons` applied to `begin()` and `end()` of `fooArchive`. -/
theorem iterator_comparisons_witness :
    fooBegin.archive_ = some fooArchive ∧ fooEnd.archive_ = some fooArchive ∧
    fooArchive.self = fooArchive.self ∧
    (operator_eq fooBegin fooEnd = .ok (decide (fooBegin.file_index_ = fooEnd.file_index_)) ∧
    operator_ne fooBegin fooEnd = .ok (decide (fooBegin.file_index_ ≠ fooEnd.file_index_)) ∧
    operator_lt fooBegin fooEnd = .ok (decide (fooBegin.file_index_ < fooEnd.file_index_)) ∧
    operator_le fooBegin fooEnd = .ok (decide (fooBegin.file_index_ ≤ fooEnd.file_index_)) ∧
    operator_gt fooBegin fooEnd = .ok (decide (fooBegin.file_index_ > fooEnd.file_index_)) ∧
    operator_ge fooBegin fooEnd = .ok (decide (fooBegin.file_index_ ≥ fooEnd.file_index_)) ∧
    ((operator_lt fooBegin fooEnd = .ok true ∧ operator_eq fooBegin fooEnd = .ok false ∧
        operator_gt fooBegin fooEnd = .ok false) ∨
      (operator_lt fooBegin fooEnd = .ok false ∧ operator_eq fooBegin fooEnd = .ok true ∧
        operator_gt fooBegin fooEnd = .ok false) ∨
      (operator_lt fooBegin fooEnd = .ok false ∧ operator_eq fooBegin fooEnd = .ok false ∧
        operator_gt fooBegin fooEnd = .ok true)) ∧
    (∀ N, fooArchive.num_files = .ok N → 0 < N →
      ∃ first last, fooArchive.begin = .ok first ∧ fooArchive.end_ = .ok last ∧
        operator_lt first last = .ok true ∧ operator_ne first last = .ok true ∧
        operator_le last first = .ok false)) :=
  ⟨rfl, rfl, rfl, iterator_comparisons fooBegin fooEnd fooArchive fooArchive rfl rfl rfl⟩

/-- The theorem `iterator_index_invariant` applied to `begin()` of `fooArchive`. -/
theorem iterator_index_invariant_witness :
    fooArchive.num_files = .ok 1 ∧ fooBegin.Inv fooArchive 1 ∧
    ((∃ first last, fooArchive.begin = .ok first ∧ fooArchive.end_ = .ok last ∧
      first.Inv fooArchive 1 ∧ last.Inv fooArchive 1) ∧
    (∀ i r, Iterator.ctor (some fooArchive) i = .ok r → r.Inv fooArchive 1) ∧
    (∀ r, fooBegin.operator_pre_inc = .ok r → r.Inv fooArchive 1) ∧
    (∀ s r, fooBegin.operator_post_inc = .ok (s, r) →
      s.Inv fooArchive 1 ∧ r.Inv fooArchive 1) ∧
    (∀ r, fooBegin.operator_pre_dec = .ok r → r.Inv fooArchive 1) ∧
    (∀ s r, fooBegin.operator_post_dec = .ok (s, r) →
      s.Inv fooArchive 1 ∧ r.Inv fooArchive 1) ∧
    (∀ k r, fooBegin.operator_add_assign k = .ok r → r.Inv fooArchive 1) ∧
    (∀ k r, fooBegin.operator_sub_assign k = .ok r → r.Inv fooArchive 1) ∧
    (∀ k r, operator_add fooBegin k = .ok r → r.Inv fooArchive 1) ∧
    (∀ k r, operator_add_left k fooBegin = .ok r → r.Inv fooArchive 1) ∧
    (∀ k r, operator_sub fooBegin k = .ok r → r.Inv fooArchive 1) ∧
    (fooBegin.file_index_ < 1 →
      (∃ r, fooBegin.operator_pre_inc = .ok r) ∧
      (∃ s r, fooBegin.operator_post_inc = .ok (s, r))) ∧
    (0 < fooBegin.file_index_ →
      (∃ r, fooBegin.operator_pre_dec = .ok r) ∧
      (∃ s r, fooBegin.operator_post_dec = .ok (s, r)))) :=
  ⟨rfl, ⟨rfl, by decide⟩,
    iterator_index_invariant fooBegin fooArchive 1 rfl ⟨rfl, by decide⟩⟩

/-- The theorem `header_reads_in_bounds` applied to the 35-byte buffer `fooBytes`. -/
theorem header_reads_in_bounds_witness :
    (Memory.ofList fooBytes).Holds 35 ∧
    ((∃ a n, Archive.ctor 0 (some (Memory.ofList fooBytes)) 35 = .ok a ∧ a.num_files = .ok n) ∧
    (12 ≤ 35 →
      ∃ a r n, Archive.ctor 0 (some (Memory.ofList fooBytes)) 35 = .ok a ∧
        Archive.ctor 0 (some ((Memory.ofList fooBytes).restrict 12)) 35 = .ok r ∧
        r.parsing_result = a.parsing_result ∧
        a.num_files = .ok n ∧ r.num_files = .ok n) ∧
    (∀ (m : Memory) (n : Nat), n < 12 →
      Archive.ctor 0 (some m) n = .ok ⟨0, .TooFewDataSize, some m, n⟩ ∧
      Archive.num_files ⟨0, .TooFewDataSize, some m, n⟩ = .ok 0) ∧
    (∀ n : Nat, n < 12 →
      Archive.ctor 0 (some Memory.empty) n = .ok ⟨0, .TooFewDataSize, some Memory.empty, n⟩) ∧
    (∀ n : Nat,
      Archive.ctor 0 none n = .ok ⟨0, .NullData, none, n⟩ ∧
      Archive.num_files ⟨0, .NullData, none, n⟩ = .ok 0) ∧
    (∀ (data : Option Memory) (n : Nat) (a : Archive),
      Archive.ctor 0 data n = .ok a →
        a.num_files ≠ .error .AssertionFailed ∧
        (∀ i, a.get_file i ≠ .error .AssertionFailed) ∧
        (∀ name, a.find_file name ≠ .error .AssertionFailed))) :=
  ⟨by decide, header_reads_in_bounds 0 (Memory.ofList fooBytes) 35 (by decide)⟩

end sarc
